import Mathlib

/-!
Verification of the Google-Tasks-to-Super-Productivity converter
(`google_tasks_to_sp.py`): a shallow embedding of the conversion pipeline
(`convert_task_with_assigned_id`, `convert_task_list`,
`build_subtask_relationships`, `convert_google_tasks_to_sp`) and of the
structural validator (`validate_sp_data`), together with theorems settling
the specification claims.

Modelling conventions:
* Python dicts keyed by generated identifiers are association lists
  (`List (κ × α)`) in insertion order; `alookup` is `dict.get`,
  `dinsert` is `dict[k] = v` (replace first binding or append),
  `dupdate` mutates the value stored under an existing key.
* `uuid.uuid4()` is modelled by a fresh-identifier counter threaded through
  the run (state field `ctr`); collision-freedom of version-4 UUIDs is the
  one assumption this replaces.  Generated identifiers are therefore `Nat`.
* `datetime.now()` is the explicit parameter `now`.
* The interior of the `try:` block of `parse_iso_to_unix_ms` (the
  `Z`-normalisation retries around `datetime.fromisoformat` and
  `int(dt.timestamp() * 1000)`) wraps stdlib calendar arithmetic and a
  float multiplication, so it is abstracted as a parameter
  `pm : String → Option Int` (its result in Unix milliseconds, `none` on
  parse failure); the falsy-input guard of the function is embedded.
  `parse_iso_to_date_string` is likewise abstracted as
  `pd : String → Option String` behind its falsy guard.  No claim depends
  on the interior of either parser.
* Python truthiness tests on strings (`if original_id:`, `if parent_id:`)
  are `≠ ""` / `Option.isSome`; identifiers produced by `uuid4` are never
  empty, so truthiness of a generated identifier is just presence.
-/

namespace GT2SP

/-- First-match lookup in an association list: Python `dict.get(k)`
(dict keys are unique, so first match is the binding). -/
def alookup {κ α : Type} [DecidableEq κ] : List (κ × α) → κ → Option α
  | [], _ => none
  | e :: t, k => if e.1 = k then some e.2 else alookup t k

/-- Python `dict[k] = v`: replace the first binding of `k`, or append a new
binding when `k` is absent (dict insertion order). -/
def dinsert {κ α : Type} [DecidableEq κ] : List (κ × α) → κ → α → List (κ × α)
  | [], k, v => [(k, v)]
  | e :: t, k, v => if e.1 = k then (k, v) :: t else e :: dinsert t k v

/-- In-place mutation of the value stored under key `k` (no-op when `k` is
absent; every use site is guarded by a membership test, as in the source). -/
def dupdate {κ α : Type} [DecidableEq κ] (f : α → α) : List (κ × α) → κ → List (κ × α)
  | [], _ => []
  | e :: t, k => if e.1 = k then (e.1, f e.2) :: t else e :: dupdate f t k

@[simp] theorem alookup_nil {κ α : Type} [DecidableEq κ] (k : κ) :
    alookup ([] : List (κ × α)) k = none := rfl

@[simp] theorem alookup_cons {κ α : Type} [DecidableEq κ] (e : κ × α) (t : List (κ × α)) (k : κ) :
    alookup (e :: t) k = if e.1 = k then some e.2 else alookup t k := rfl

theorem alookup_append {κ α : Type} [DecidableEq κ] (l₁ l₂ : List (κ × α)) (k : κ) :
    alookup (l₁ ++ l₂) k = ((alookup l₁ k).rec (alookup l₂ k) (fun v => some v) : Option α) := by
  induction l₁ with
  | nil => simp
  | cons e t ih =>
      by_cases h : e.1 = k <;> simp [alookup, h, ih]

theorem alookup_append_of_eq_some {κ α : Type} [DecidableEq κ] {l₁ : List (κ × α)} {k : κ}
    {v : α} (l₂ : List (κ × α)) (h : alookup l₁ k = some v) :
    alookup (l₁ ++ l₂) k = some v := by
  rw [alookup_append, h]

theorem alookup_append_of_eq_none {κ α : Type} [DecidableEq κ] {l₁ : List (κ × α)} {k : κ}
    (l₂ : List (κ × α)) (h : alookup l₁ k = none) :
    alookup (l₁ ++ l₂) k = alookup l₂ k := by
  rw [alookup_append, h]

theorem alookup_append_some {κ α : Type} [DecidableEq κ] {l₁ l₂ : List (κ × α)} {k : κ}
    {v : α} (h : alookup (l₁ ++ l₂) k = some v) :
    alookup l₁ k = some v ∨ (alookup l₁ k = none ∧ alookup l₂ k = some v) := by
  cases h2 : alookup l₁ k with
  | none =>
      right
      exact ⟨rfl, by rwa [alookup_append_of_eq_none _ h2] at h⟩
  | some w =>
      left
      have h3 := alookup_append_of_eq_some l₂ h2
      rw [h3] at h
      exact h

theorem alookup_isSome_of_mem_keys {κ α : Type} [DecidableEq κ] {l : List (κ × α)} {k : κ}
    (h : k ∈ l.map Prod.fst) : (alookup l k).isSome := by
  induction l with
  | nil => simp at h
  | cons e t ih =>
      rw [List.map_cons, List.mem_cons] at h
      by_cases he : e.1 = k
      · simp [alookup, he]
      · rcases h with h1 | h1
        · exact absurd h1.symm he
        · simp [alookup, he, ih h1]

theorem mem_keys_of_alookup_eq_some {κ α : Type} [DecidableEq κ] {l : List (κ × α)} {k : κ}
    {v : α} (h : alookup l k = some v) : k ∈ l.map Prod.fst := by
  induction l with
  | nil => simp [alookup] at h
  | cons e t ih =>
      by_cases he : e.1 = k
      · simp [he.symm]
      · simp only [alookup, he, if_false] at h
        simp [ih h]

theorem alookup_eq_none_of_not_mem_keys {κ α : Type} [DecidableEq κ] {l : List (κ × α)} {k : κ}
    (h : k ∉ l.map Prod.fst) : alookup l k = none := by
  cases hv : alookup l k with
  | none => rfl
  | some v => exact absurd (mem_keys_of_alookup_eq_some hv) h

theorem mem_of_alookup_eq_some {κ α : Type} [DecidableEq κ] {l : List (κ × α)} {k : κ}
    {v : α} (h : alookup l k = some v) : (k, v) ∈ l := by
  induction l with
  | nil => simp [alookup] at h
  | cons e t ih =>
      by_cases he : e.1 = k
      · subst he
        simp only [alookup, if_pos] at h
        cases h
        exact List.mem_cons_self _ _
      · simp only [alookup, he, if_false] at h
        exact List.mem_cons_of_mem _ (ih h)

theorem dinsert_eq_append_of_not_mem {κ α : Type} [DecidableEq κ] {l : List (κ × α)} {k : κ}
    (v : α) (h : k ∉ l.map Prod.fst) : dinsert l k v = l ++ [(k, v)] := by
  induction l with
  | nil => rfl
  | cons e t ih =>
      simp only [List.map_cons, List.mem_cons] at h
      push_neg at h
      simp [dinsert, Ne.symm h.1, ih h.2]

@[simp] theorem dupdate_keys {κ α : Type} [DecidableEq κ] (f : α → α) (l : List (κ × α)) (k : κ) :
    (dupdate f l k).map Prod.fst = l.map Prod.fst := by
  induction l with
  | nil => rfl
  | cons e t ih =>
      by_cases h : e.1 = k <;> simp [dupdate, h, ih]

theorem alookup_dupdate_self {κ α : Type} [DecidableEq κ] (f : α → α) {l : List (κ × α)} {k : κ}
    {v : α} (h : alookup l k = some v) : alookup (dupdate f l k) k = some (f v) := by
  induction l with
  | nil => simp [alookup] at h
  | cons e t ih =>
      by_cases he : e.1 = k
      · simp only [alookup, he, if_pos] at h
        cases h
        simp [dupdate, alookup, he]
      · simp only [alookup, he, if_false] at h
        simp [dupdate, alookup, he, ih h]

theorem alookup_dupdate_ne {κ α : Type} [DecidableEq κ] (f : α → α) (l : List (κ × α)) {k k' : κ}
    (h : k ≠ k') : alookup (dupdate f l k) k' = alookup l k' := by
  induction l with
  | nil => rfl
  | cons e t ih =>
      by_cases he : e.1 = k
      · subst he
        simp [dupdate, alookup, h, ih]
      · simp [dupdate, alookup, he, ih]

/-- `dupdate` on a key bound to `v` when `f v = v` is the identity. -/
theorem dupdate_eq_self {κ α : Type} [DecidableEq κ] {f : α → α} {l : List (κ × α)} {k : κ}
    (h : ∀ v, alookup l k = some v → f v = v) : dupdate f l k = l := by
  induction l with
  | nil => rfl
  | cons e t ih =>
      by_cases he : e.1 = k
      · have hf := h e.2 (by simp [alookup, he])
        subst he
        simp [dupdate, hf]
      · simp only [dupdate, he, if_false, List.cons.injEq, true_and]
        exact ih (fun v hv => h v (by simp [alookup, he, hv]))

-- ===========================================================================
-- Data model (source records and converted records)
-- ===========================================================================

/-- A Google Tasks source task (one element of a task list's `items`).
Fields the code reads with `.get` are `Option`s; `deleted` / `hidden` are
the truthiness of those flags. -/
structure GTask where
  id : Option String := none
  title : Option String := none
  notes : Option String := none
  status : Option String := none
  completed : Option String := none
  due : Option String := none
  parent : Option String := none
  updated : Option String := none
  deleted : Bool := false
  hidden : Bool := false
deriving Repr, DecidableEq

/-- A Google Tasks source list (group): `title` and an optional `items` key. -/
structure GTaskList where
  title : Option String := none
  items : Option (List GTask) := none
deriving Repr, DecidableEq

/-- The top-level Google Takeout document. -/
structure GDoc where
  kind : Option String := none
  items : Option (List GTaskList) := none
deriving Repr, DecidableEq

/-- A converted Super Productivity task.  Fields the code only ever sets to
constants (`tagIds`, `timeSpent`, `timeEstimate`, `timeSpentOnDay`,
`dueWithTime`, `attachments`) are omitted: they are input-independent and no
claim mentions them.  `doneOn`, `dueDay`, `parentId`, `origId` are `Option`s
because the source only adds those dict keys when the value is non-`None`. -/
structure SPTask where
  id : Nat
  title : String
  notes : String
  projectId : Nat
  isDone : Bool
  doneOn : Option Int := none
  dueDay : Option String := none
  parentId : Option Nat := none
  subTaskIds : List Nat := []
  created : Int
  updated : Int
  origId : Option String := none
deriving Repr, DecidableEq

/-- A converted Super Productivity project.  The constant configuration
fields (`theme`, `advancedCfg`, flags, …) are input-independent and omitted. -/
structure Project where
  id : Nat
  title : String
  taskIds : List Nat
deriving Repr, DecidableEq

-- ===========================================================================
-- Utility functions of the source
-- ===========================================================================

/-- `sanitize_title`: trim surrounding whitespace; empty or absent titles
become the fixed placeholder (Python `str.strip` modelled by `String.trim`). -/
def sanitize_title (title : Option String) : String :=
  match title with
  | none => "Untitled Task"
  | some t => if t.trim = "" then "Untitled Task" else t.trim

/-- `parse_iso_to_unix_ms`: the falsy guard (`None` or `""` yields `None`) is
embedded; the interior of the `try:` block is the abstract parser `pm`
(see the file header). -/
def parse_iso_to_unix_ms (pm : String → Option Int) (iso_string : Option String) : Option Int :=
  match iso_string with
  | none => none
  | some s => if s = "" then none else pm s

/-- `parse_iso_to_date_string`: falsy guard embedded, interior abstracted
as `pd`. -/
def parse_iso_to_date_string (pd : String → Option String) (iso_string : Option String) :
    Option String :=
  match iso_string with
  | none => none
  | some s => if s = "" then none else pd s

/-- Python `x or y` on an `Optional[int]` left operand: `None` and `0` are
falsy, every other integer is truthy. -/
def pyOrInt (x : Option Int) (y : Int) : Int :=
  match x with
  | none => y
  | some v => if v = 0 then y else v

-- ===========================================================================
-- convert_task_with_assigned_id (first-pass conversion of one task)
-- ===========================================================================

/-- `convert_task_with_assigned_id`: convert one source task given a
pre-assigned fresh identifier; `none` when the task is deleted or hidden. -/
def convert_task_with_assigned_id (pm : String → Option Int) (pd : String → Option String)
    (now : Int) (gtask : GTask) (project_id : Nat) (assigned_id : Nat)
    (id_mapping : List (String × Nat)) : Option SPTask :=
  if gtask.deleted || gtask.hidden then none
  else
    let original_id := gtask.id.getD ""
    let is_done := gtask.status = some "completed"
    let done_on := if is_done then parse_iso_to_unix_ms pm gtask.completed else none
    let updated_ts := parse_iso_to_unix_ms pm gtask.updated
    let due_day := parse_iso_to_date_string pd gtask.due
    let parent_id : Option Nat :=
      match gtask.parent with
      | none => none
      | some p => if p = "" then none else alookup id_mapping p
    some {
      id := assigned_id
      title := sanitize_title gtask.title
      notes := gtask.notes.getD ""
      projectId := project_id
      isDone := is_done
      doneOn := done_on
      dueDay := due_day
      parentId := parent_id
      subTaskIds := []
      created := pyOrInt updated_ts now
      updated := pyOrInt updated_ts now
      origId := if original_id = "" then none else some original_id }

-- ===========================================================================
-- First pass: convert_task_list over all groups
-- ===========================================================================

/-- The mutable state threaded through the first pass of
`convert_google_tasks_to_sp`: the UUID generator (`ctr`), `id_mapping`,
`all_tasks` and `task_id_to_original`. -/
structure CState where
  ctr : Nat
  idMap : List (String × Nat)
  allTasks : List (Nat × SPTask)
  t2o : List (Nat × GTask)
deriving Repr, DecidableEq

/-- One iteration of the per-task loop of `convert_task_list`: draw a fresh
identifier, record the first-occurrence `id_mapping` entry, convert, and
accumulate the converted task and its identifier. -/
def stepTask (pm : String → Option Int) (pd : String → Option String) (now : Int)
    (project_id : Nat) (acc : CState × List Nat) (gtask : GTask) : CState × List Nat :=
  let s := acc.1
  let original_id := gtask.id.getD ""
  let new_id := s.ctr
  let idMap2 := if original_id ≠ "" ∧ alookup s.idMap original_id = none
    then s.idMap ++ [(original_id, new_id)] else s.idMap
  match convert_task_with_assigned_id pm pd now gtask project_id new_id idMap2 with
  | some task =>
      (⟨new_id + 1, idMap2, dinsert s.allTasks task.id task, dinsert s.t2o task.id gtask⟩,
        acc.2 ++ [task.id])
  | none => (⟨new_id + 1, idMap2, s.allTasks, s.t2o⟩, acc.2)

/-- `convert_task_list`: generate the project identifier, run the per-task
loop over `items` (absent `items` is the empty list), and build the project
record whose `taskIds` is the arrival-order list of converted identifiers. -/
def convert_task_list (pm : String → Option Int) (pd : String → Option String) (now : Int)
    (task_list : GTaskList) (s0 : CState) : CState × Project × List Nat :=
  let project_id := s0.ctr
  let s1 : CState := { s0 with ctr := s0.ctr + 1 }
  let r := (task_list.items.getD []).foldl (stepTask pm pd now project_id) (s1, [])
  (r.1, ⟨project_id, sanitize_title task_list.title, r.2⟩, r.2)

/-- Whole-document first-pass state: the conversion state plus the project
entity table (`sp_data.project`) and `project_task_ids`. -/
structure DState where
  cs : CState
  projects : List (Nat × Project)
  ptids : List (Nat × List Nat)
deriving Repr, DecidableEq

/-- One iteration of the per-group loop of `convert_google_tasks_to_sp`. -/
def stepList (pm : String → Option Int) (pd : String → Option String) (now : Int)
    (d : DState) (task_list : GTaskList) : DState :=
  let r := convert_task_list pm pd now task_list d.cs
  ⟨r.1, dinsert d.projects r.2.1.id r.2.1, dinsert d.ptids r.2.1.id r.2.2⟩

/-- The initial (empty) document state. -/
def initDState : DState := ⟨⟨0, [], [], []⟩, [], []⟩

/-- The first pass of `convert_google_tasks_to_sp` over every group of the
document (a missing top-level `items` key is the empty list of groups). -/
def firstPass (pm : String → Option Int) (pd : String → Option String) (now : Int)
    (doc : GDoc) : DState :=
  (doc.items.getD []).foldl (stepList pm pd now) initDState

-- ===========================================================================
-- Second pass: build_subtask_relationships
-- ===========================================================================

/-- One iteration of the loop of `build_subtask_relationships`, for the entry
`e = (task_id, original gtask)`; `acc` is the pair of the (mutated) task
table and the accumulated `subtask_ids` set (modelled as a duplicate-free
membership list). -/
def bsrStep (idMap : List (String × Nat)) (acc : List (Nat × SPTask) × List Nat)
    (e : Nat × GTask) : List (Nat × SPTask) × List Nat :=
  match e.2.parent with
  | none => acc
  | some p =>
    if p = "" then acc
    else if (alookup acc.1 e.1).isNone then acc
    else
      match alookup idMap p with
      | none => acc
      | some parent_new_id =>
        if (alookup acc.1 parent_new_id).isSome then
          let tasks1 := dupdate (fun t => { t with parentId := some parent_new_id }) acc.1 e.1
          let tasks2 :=
            match alookup tasks1 parent_new_id with
            | some pt =>
                if e.1 ∈ pt.subTaskIds then tasks1
                else dupdate (fun t => { t with subTaskIds := t.subTaskIds ++ [e.1] })
                  tasks1 parent_new_id
            | none => tasks1
          (tasks2, if e.1 ∈ acc.2 then acc.2 else acc.2 ++ [e.1])
        else acc

/-- `build_subtask_relationships`: the second pass over
`task_id_to_original`, returning the mutated task table and the set of
subtask identifiers. -/
def build_subtask_relationships (tasks : List (Nat × SPTask)) (idMap : List (String × Nat))
    (t2o : List (Nat × GTask)) : List (Nat × SPTask) × List Nat :=
  t2o.foldl (bsrStep idMap) (tasks, [])

-- ===========================================================================
-- convert_google_tasks_to_sp (whole pipeline)
-- ===========================================================================

/-- The output document: the `project` and `task` sub-documents of
`sp_data` (`ids` lists in insertion order plus `entities` tables).  The
constant backup-envelope fields and the fixed empty sibling sub-documents
are input-independent and omitted. -/
structure SPOut where
  projectIds : List Nat
  projects : List (Nat × Project)
  taskIds : List Nat
  tasks : List (Nat × SPTask)
deriving Repr, DecidableEq

/-- `convert_google_tasks_to_sp`: first pass over every group, second pass
building the subtask relationships, then the per-project filtering that
removes subtask identifiers from each group's visible `taskIds`
(`project_task_ids[pid]` is exactly the list stored in the project entity
at creation, so the update rewrites each project's list in place). -/
def convert_google_tasks_to_sp (pm : String → Option Int) (pd : String → Option String)
    (now : Int) (doc : GDoc) : SPOut :=
  let d := firstPass pm pd now doc
  let r := build_subtask_relationships d.cs.allTasks d.cs.idMap d.cs.t2o
  let subtask_ids := r.2
  let projects2 := d.ptids.foldl
    (fun ps e => dupdate
      (fun pr => { pr with taskIds := e.2.filter (fun tid => decide (tid ∉ subtask_ids)) })
      ps e.1) d.projects
  { projectIds := d.projects.map Prod.fst
    projects := projects2
    taskIds := r.1.map Prod.fst
    tasks := r.1 }

-- ===========================================================================
-- Lemmas about convert_task_with_assigned_id
-- ===========================================================================

theorem conv_eq_none_iff (pm : String → Option Int) (pd : String → Option String) (now : Int)
    (g : GTask) (pid aid : Nat) (m : List (String × Nat)) :
    convert_task_with_assigned_id pm pd now g pid aid m = none ↔
      (g.deleted || g.hidden) = true := by
  by_cases h : (g.deleted || g.hidden) = true <;>
    simp [convert_task_with_assigned_id, h]

theorem conv_fields (pm : String → Option Int) (pd : String → Option String) (now : Int)
    (g : GTask) (pid aid : Nat) (m : List (String × Nat)) {t : SPTask}
    (h : convert_task_with_assigned_id pm pd now g pid aid m = some t) :
    t.id = aid ∧ t.subTaskIds = [] ∧
      t.parentId = (match g.parent with
        | none => none
        | some p => if p = "" then none else alookup m p) := by
  by_cases hd : (g.deleted || g.hidden) = true
  · simp [convert_task_with_assigned_id, hd] at h
  · simp only [convert_task_with_assigned_id, hd, Bool.false_eq_true, if_false,
      Option.some.injEq] at h
    subst h
    exact ⟨rfl, rfl, rfl⟩

-- ===========================================================================
-- First-pass invariant and step lemmas
-- ===========================================================================

/-- The running invariant of the first-pass conversion state: every task key
and every mapping value is a previously drawn counter value, the task table
and `task_id_to_original` are keyed identically, keys are duplicate-free,
and every stored task is aligned with its source task. -/
structure SInv (s : CState) : Prop where
  taskKeysLt : ∀ k ∈ s.allTasks.map Prod.fst, k < s.ctr
  mapValsLt : ∀ e ∈ s.idMap, e.2 < s.ctr
  keysEq : s.allTasks.map Prod.fst = s.t2o.map Prod.fst
  keysNodup : (s.allTasks.map Prod.fst).Nodup
  aligned : ∀ k t, alookup s.allTasks k = some t →
    t.id = k ∧ t.subTaskIds = [] ∧
    ∃ g, alookup s.t2o k = some g ∧
      (t.parentId = none ∨
        ∃ p, g.parent = some p ∧ p ≠ "" ∧ alookup s.idMap p = t.parentId)

theorem sinv_init : SInv ⟨0, [], [], []⟩ := by
  refine ⟨?_, ?_, rfl, List.nodup_nil, ?_⟩ <;> simp [alookup]

/-- The explicit form of one `stepTask` iteration on a state satisfying the
invariant: the dict insertions are plain appends of fresh keys. -/
theorem stepTask_eq (pm : String → Option Int) (pd : String → Option String) (now : Int)
    (pid : Nat) (s : CState) (tids : List Nat) (g : GTask) (hs : SInv s) :
    stepTask pm pd now pid (s, tids) g =
      (let oid := g.id.getD ""
       let m2 := if oid ≠ "" ∧ alookup s.idMap oid = none
         then s.idMap ++ [(oid, s.ctr)] else s.idMap
       match convert_task_with_assigned_id pm pd now g pid s.ctr m2 with
       | some t => (⟨s.ctr + 1, m2, s.allTasks ++ [(s.ctr, t)], s.t2o ++ [(s.ctr, g)]⟩,
           tids ++ [s.ctr])
       | none => (⟨s.ctr + 1, m2, s.allTasks, s.t2o⟩, tids)) := by
  have hkt : s.ctr ∉ s.allTasks.map Prod.fst := fun hmem =>
    absurd (hs.taskKeysLt _ hmem) (lt_irrefl _)
  have hko : s.ctr ∉ s.t2o.map Prod.fst := by
    rw [← hs.keysEq]; exact hkt
  simp only [stepTask]
  cases h : convert_task_with_assigned_id pm pd now g pid s.ctr
      (if g.id.getD "" ≠ "" ∧ alookup s.idMap (g.id.getD "") = none
       then s.idMap ++ [(g.id.getD "", s.ctr)] else s.idMap) with
  | none => rfl
  | some t =>
      have hid : t.id = s.ctr := (conv_fields _ _ _ _ _ _ _ h).1
      simp only [hid, dinsert_eq_append_of_not_mem _ hkt, dinsert_eq_append_of_not_mem _ hko]

theorem stepTask_ctr (pm : String → Option Int) (pd : String → Option String) (now : Int)
    (pid : Nat) (acc : CState × List Nat) (g : GTask) :
    (stepTask pm pd now pid acc g).1.ctr = acc.1.ctr + 1 := by
  simp only [stepTask]
  cases convert_task_with_assigned_id pm pd now g pid acc.1.ctr
      (if g.id.getD "" ≠ "" ∧ alookup acc.1.idMap (g.id.getD "") = none
       then acc.1.idMap ++ [(g.id.getD "", acc.1.ctr)] else acc.1.idMap) <;> rfl

theorem stepTask_idMap_mono (pm : String → Option Int) (pd : String → Option String) (now : Int)
    (pid : Nat) (acc : CState × List Nat) (g : GTask) {o : String} {v : Nat}
    (h : alookup acc.1.idMap o = some v) :
    alookup (stepTask pm pd now pid acc g).1.idMap o = some v := by
  simp only [stepTask]
  cases convert_task_with_assigned_id pm pd now g pid acc.1.ctr
      (if g.id.getD "" ≠ "" ∧ alookup acc.1.idMap (g.id.getD "") = none
       then acc.1.idMap ++ [(g.id.getD "", acc.1.ctr)] else acc.1.idMap) <;>
    · simp only
      split
      · exact alookup_append_of_eq_some _ h
      · exact h

theorem stepTask_idMap_miss (pm : String → Option Int) (pd : String → Option String) (now : Int)
    (pid : Nat) (acc : CState × List Nat) (g : GTask) {o : String}
    (ho : g.id.getD "" ≠ o) :
    alookup (stepTask pm pd now pid acc g).1.idMap o = alookup acc.1.idMap o := by
  have hsingle : alookup [(g.id.getD "", acc.1.ctr)] o = none := by
    simp [alookup, ho]
  simp only [stepTask]
  cases convert_task_with_assigned_id pm pd now g pid acc.1.ctr
      (if g.id.getD "" ≠ "" ∧ alookup acc.1.idMap (g.id.getD "") = none
       then acc.1.idMap ++ [(g.id.getD "", acc.1.ctr)] else acc.1.idMap) <;>
    · simp only
      split
      · rw [alookup_append, hsingle]
        cases alookup acc.1.idMap o <;> rfl
      · rfl

theorem stepTask_idMap_insert (pm : String → Option Int) (pd : String → Option String)
    (now : Int) (pid : Nat) (acc : CState × List Nat) (g : GTask)
    (hne : g.id.getD "" ≠ "") (hnone : alookup acc.1.idMap (g.id.getD "") = none) :
    alookup (stepTask pm pd now pid acc g).1.idMap (g.id.getD "") = some acc.1.ctr := by
  have hcond : (g.id.getD "" ≠ "" ∧ alookup acc.1.idMap (g.id.getD "") = none) := ⟨hne, hnone⟩
  have happ : alookup (acc.1.idMap ++ [(g.id.getD "", acc.1.ctr)]) (g.id.getD "") =
      some acc.1.ctr := by
    rw [alookup_append_of_eq_none _ hnone]
    simp [alookup]
  simp only [stepTask]
  cases convert_task_with_assigned_id pm pd now g pid acc.1.ctr
      (if g.id.getD "" ≠ "" ∧ alookup acc.1.idMap (g.id.getD "") = none
       then acc.1.idMap ++ [(g.id.getD "", acc.1.ctr)] else acc.1.idMap) <;>
    · simp only
      rw [if_pos hcond]
      exact happ

theorem sinv_bump {s : CState} (hs : SInv s) : SInv { s with ctr := s.ctr + 1 } := by
  refine ⟨?_, ?_, hs.keysEq, hs.keysNodup, hs.aligned⟩
  · exact fun k hk => Nat.lt_succ_of_lt (hs.taskKeysLt k hk)
  · exact fun e he => Nat.lt_succ_of_lt (hs.mapValsLt e he)

theorem alookup_idMap_grow {m m2 : List (String × Nat)}
    (hmono : ∀ o v, alookup m o = some v → alookup m2 o = some v)
    {t : SPTask} {g : GTask}
    (h : t.parentId = none ∨ ∃ p, g.parent = some p ∧ p ≠ "" ∧ alookup m p = t.parentId) :
    t.parentId = none ∨ ∃ p, g.parent = some p ∧ p ≠ "" ∧ alookup m2 p = t.parentId := by
  rcases h with h | ⟨p, hp, hpne, hm⟩
  · exact Or.inl h
  · cases hpar : t.parentId with
    | none => exact Or.inl rfl
    | some a =>
        rw [hpar] at hm
        exact Or.inr ⟨p, hp, hpne, hmono p a hm⟩

theorem stepTask_sinv (pm : String → Option Int) (pd : String → Option String) (now : Int)
    (pid : Nat) (s : CState) (tids : List Nat) (g : GTask) (hs : SInv s) :
    SInv (stepTask pm pd now pid (s, tids) g).1 := by
  rw [stepTask_eq pm pd now pid s tids g hs]
  simp only
  have hmono : ∀ o v, alookup s.idMap o = some v →
      alookup (if g.id.getD "" ≠ "" ∧ alookup s.idMap (g.id.getD "") = none
        then s.idMap ++ [(g.id.getD "", s.ctr)] else s.idMap) o = some v := by
    intro o v hv
    split
    · exact alookup_append_of_eq_some _ hv
    · exact hv
  have hmaplt : ∀ e ∈ (if g.id.getD "" ≠ "" ∧ alookup s.idMap (g.id.getD "") = none
      then s.idMap ++ [(g.id.getD "", s.ctr)] else s.idMap), e.2 < s.ctr + 1 := by
    intro e he
    split at he
    · rcases List.mem_append.mp he with he | he
      · exact Nat.lt_succ_of_lt (hs.mapValsLt e he)
      · simp only [List.mem_singleton] at he
        simp [he]
    · exact Nat.lt_succ_of_lt (hs.mapValsLt e he)
  cases hc : convert_task_with_assigned_id pm pd now g pid s.ctr
      (if g.id.getD "" ≠ "" ∧ alookup s.idMap (g.id.getD "") = none
       then s.idMap ++ [(g.id.getD "", s.ctr)] else s.idMap) with
  | none =>
      refine ⟨fun k hk => Nat.lt_succ_of_lt (hs.taskKeysLt k hk), hmaplt,
        hs.keysEq, hs.keysNodup, ?_⟩
      intro k t ht
      obtain ⟨h1, h2, gk, h3, h4⟩ := hs.aligned k t ht
      exact ⟨h1, h2, gk, h3, alookup_idMap_grow hmono h4⟩
  | some t =>
      obtain ⟨hid, hsub, hpar⟩ := conv_fields _ _ _ _ _ _ _ hc
      have hctrnin : s.ctr ∉ s.allTasks.map Prod.fst := fun hmem =>
        absurd (hs.taskKeysLt _ hmem) (lt_irrefl _)
      refine ⟨?_, hmaplt, ?_, ?_, ?_⟩
      · intro k hk
        simp only [List.map_append, List.map_cons, List.map_nil, List.mem_append,
          List.mem_singleton] at hk
        rcases hk with hk | hk
        · exact Nat.lt_succ_of_lt (hs.taskKeysLt k hk)
        · simp [hk]
      · simp [hs.keysEq]
      · simp only [List.map_append, List.map_cons, List.map_nil]
        rw [List.nodup_append]
        refine ⟨hs.keysNodup, List.nodup_singleton _, ?_⟩
        intro a ha hb
        simp only [List.mem_singleton] at hb
        exact hctrnin (hb ▸ ha)
      · intro k t' ht'
        rcases alookup_append_some ht' with hold | ⟨hold, hnew⟩
        · obtain ⟨h1, h2, gk, h3, h4⟩ := hs.aligned k t' hold
          exact ⟨h1, h2, gk, alookup_append_of_eq_some _ h3, alookup_idMap_grow hmono h4⟩
        · have hk : s.ctr = k ∧ t = t' := by
            simp only [alookup] at hnew
            by_cases hq : s.ctr = k
            · rw [if_pos hq] at hnew
              exact ⟨hq, Option.some.inj hnew⟩
            · rw [if_neg hq] at hnew
              cases hnew
          obtain ⟨hk1, hk2⟩ := hk
          subst hk1
          subst hk2
          refine ⟨hid, hsub, g, ?_, ?_⟩
          · have ho : alookup s.t2o s.ctr = none := by
              refine alookup_eq_none_of_not_mem_keys ?_
              rw [← hs.keysEq]
              exact hctrnin
            rw [alookup_append_of_eq_none _ ho]
            simp [alookup]
          · rw [hpar]
            cases hp : g.parent with
            | none => exact Or.inl rfl
            | some p =>
                by_cases hpe : p = ""
                · simp [hpe]
                · simp only [hpe, if_false]
                  cases hm : alookup (if g.id.getD "" ≠ "" ∧
                      alookup s.idMap (g.id.getD "") = none
                      then s.idMap ++ [(g.id.getD "", s.ctr)] else s.idMap) p with
                  | none => exact Or.inl rfl
                  | some v => exact Or.inr ⟨p, rfl, hpe, hm⟩

theorem stepTask_lookup_lt (pm : String → Option Int) (pd : String → Option String) (now : Int)
    (pid : Nat) (s : CState) (tids : List Nat) (g : GTask) (hs : SInv s)
    {k : Nat} (hk : k < s.ctr) :
    alookup (stepTask pm pd now pid (s, tids) g).1.allTasks k = alookup s.allTasks k ∧
    alookup (stepTask pm pd now pid (s, tids) g).1.t2o k = alookup s.t2o k ∧
    (k ∈ (stepTask pm pd now pid (s, tids) g).2 ↔ k ∈ tids) := by
  rw [stepTask_eq pm pd now pid s tids g hs]
  simp only
  have hkne : s.ctr ≠ k := fun h => absurd (h ▸ hk) (lt_irrefl _)
  have hsingleT : ∀ t : SPTask, alookup [(s.ctr, t)] k = none := by
    intro t
    simp [alookup, hkne]
  have hsingleG : alookup [(s.ctr, g)] k = none := by simp [alookup, hkne]
  cases hc : convert_task_with_assigned_id pm pd now g pid s.ctr
      (if g.id.getD "" ≠ "" ∧ alookup s.idMap (g.id.getD "") = none
       then s.idMap ++ [(g.id.getD "", s.ctr)] else s.idMap) with
  | none => exact ⟨rfl, rfl, Iff.rfl⟩
  | some t =>
      refine ⟨?_, ?_, ?_⟩
      · rw [alookup_append, hsingleT t]
        cases alookup s.allTasks k <;> rfl
      · rw [alookup_append, hsingleG]
        cases alookup s.t2o k <;> rfl
      · constructor
        · intro hx
          rcases List.mem_append.mp hx with hx | hx
          · exact hx
          · simp only [List.mem_singleton] at hx
            exact absurd hx.symm hkne
        · intro hx
          exact List.mem_append.mpr (Or.inl hx)

theorem stepTask_tids_sub (pm : String → Option Int) (pd : String → Option String) (now : Int)
    (pid : Nat) (s : CState) (tids : List Nat) (g : GTask) (hs : SInv s)
    (hsub : ∀ x ∈ tids, x ∈ s.allTasks.map Prod.fst) :
    ∀ x ∈ (stepTask pm pd now pid (s, tids) g).2,
      x ∈ (stepTask pm pd now pid (s, tids) g).1.allTasks.map Prod.fst := by
  rw [stepTask_eq pm pd now pid s tids g hs]
  simp only
  cases hc : convert_task_with_assigned_id pm pd now g pid s.ctr
      (if g.id.getD "" ≠ "" ∧ alookup s.idMap (g.id.getD "") = none
       then s.idMap ++ [(g.id.getD "", s.ctr)] else s.idMap) with
  | none => exact hsub
  | some t =>
      intro x hx
      simp only [List.mem_append, List.mem_singleton] at hx
      simp only [List.map_append, List.map_cons, List.map_nil, List.mem_append,
        List.mem_singleton]
      rcases hx with hx | hx
      · exact Or.inl (hsub x hx)
      · exact Or.inr hx

theorem stepTask_tids_lt (pm : String → Option Int) (pd : String → Option String) (now : Int)
    (pid : Nat) (acc : CState × List Nat) (g : GTask)
    (ht : ∀ x ∈ acc.2, x < acc.1.ctr) :
    ∀ x ∈ (stepTask pm pd now pid acc g).2, x < (stepTask pm pd now pid acc g).1.ctr := by
  simp only [stepTask]
  cases hc : convert_task_with_assigned_id pm pd now g pid acc.1.ctr
      (if g.id.getD "" ≠ "" ∧ alookup acc.1.idMap (g.id.getD "") = none
       then acc.1.idMap ++ [(g.id.getD "", acc.1.ctr)] else acc.1.idMap) with
  | none => exact fun x hx => Nat.lt_succ_of_lt (ht x hx)
  | some t =>
      intro x hx
      simp only [List.mem_append, List.mem_singleton] at hx
      rcases hx with hx | hx
      · exact Nat.lt_succ_of_lt (ht x hx)
      · have hid : t.id = acc.1.ctr := (conv_fields _ _ _ _ _ _ _ hc).1
        simp [hx, hid]

theorem foldTasks_ctr (pm : String → Option Int) (pd : String → Option String) (now : Int)
    (pid : Nat) (items : List GTask) (acc : CState × List Nat) :
    (items.foldl (stepTask pm pd now pid) acc).1.ctr = acc.1.ctr + items.length := by
  induction items generalizing acc with
  | nil => rfl
  | cons g rest ih =>
      simp only [List.foldl_cons, ih, stepTask_ctr, List.length_cons]
      omega

theorem foldTasks_sinv (pm : String → Option Int) (pd : String → Option String) (now : Int)
    (pid : Nat) (items : List GTask) (acc : CState × List Nat) (hs : SInv acc.1) :
    SInv (items.foldl (stepTask pm pd now pid) acc).1 := by
  induction items generalizing acc with
  | nil => exact hs
  | cons g rest ih =>
      exact ih (stepTask pm pd now pid acc g) (stepTask_sinv pm pd now pid acc.1 acc.2 g hs)

theorem foldTasks_tids_lt (pm : String → Option Int) (pd : String → Option String) (now : Int)
    (pid : Nat) (items : List GTask) (acc : CState × List Nat)
    (ht : ∀ x ∈ acc.2, x < acc.1.ctr) :
    ∀ x ∈ (items.foldl (stepTask pm pd now pid) acc).2,
      x < (items.foldl (stepTask pm pd now pid) acc).1.ctr := by
  induction items generalizing acc with
  | nil => exact ht
  | cons g rest ih =>
      exact ih (stepTask pm pd now pid acc g) (stepTask_tids_lt pm pd now pid acc g ht)

theorem foldTasks_idMap_mono (pm : String → Option Int) (pd : String → Option String)
    (now : Int) (pid : Nat) (items : List GTask) (acc : CState × List Nat) {o : String} {v : Nat}
    (h : alookup acc.1.idMap o = some v) :
    alookup (items.foldl (stepTask pm pd now pid) acc).1.idMap o = some v := by
  induction items generalizing acc with
  | nil => exact h
  | cons g rest ih =>
      exact ih (stepTask pm pd now pid acc g) (stepTask_idMap_mono pm pd now pid acc g h)

theorem foldTasks_idMap_miss (pm : String → Option Int) (pd : String → Option String)
    (now : Int) (pid : Nat) (items : List GTask) (acc : CState × List Nat) {o : String}
    (ho : ∀ g ∈ items, g.id.getD "" ≠ o) :
    alookup (items.foldl (stepTask pm pd now pid) acc).1.idMap o = alookup acc.1.idMap o := by
  induction items generalizing acc with
  | nil => rfl
  | cons g rest ih =>
      rw [List.foldl_cons, ih (stepTask pm pd now pid acc g)
        (fun g' hg' => ho g' (List.mem_cons_of_mem _ hg'))]
      exact stepTask_idMap_miss pm pd now pid acc g (ho g (List.mem_cons_self _ _))

theorem foldTasks_lookup_lt (pm : String → Option Int) (pd : String → Option String)
    (now : Int) (pid : Nat) (items : List GTask) (acc : CState × List Nat) (hs : SInv acc.1)
    {k : Nat} (hk : k < acc.1.ctr) :
    alookup (items.foldl (stepTask pm pd now pid) acc).1.allTasks k =
      alookup acc.1.allTasks k ∧
    alookup (items.foldl (stepTask pm pd now pid) acc).1.t2o k = alookup acc.1.t2o k ∧
    (k ∈ (items.foldl (stepTask pm pd now pid) acc).2 ↔ k ∈ acc.2) := by
  induction items generalizing acc with
  | nil => exact ⟨rfl, rfl, Iff.rfl⟩
  | cons g rest ih =>
      have hstep := stepTask_lookup_lt pm pd now pid acc.1 acc.2 g hs hk
      have hk2 : k < (stepTask pm pd now pid acc g).1.ctr := by
        rw [stepTask_ctr]
        exact Nat.lt_succ_of_lt hk
      have hrest := ih (stepTask pm pd now pid acc g)
        (stepTask_sinv pm pd now pid acc.1 acc.2 g hs) hk2
      refine ⟨hrest.1.trans hstep.1, hrest.2.1.trans hstep.2.1, hrest.2.2.trans hstep.2.2⟩

theorem foldTasks_tids_sub (pm : String → Option Int) (pd : String → Option String)
    (now : Int) (pid : Nat) (items : List GTask) (acc : CState × List Nat) (hs : SInv acc.1)
    (hsub : ∀ x ∈ acc.2, x ∈ acc.1.allTasks.map Prod.fst) :
    ∀ x ∈ (items.foldl (stepTask pm pd now pid) acc).2,
      x ∈ (items.foldl (stepTask pm pd now pid) acc).1.allTasks.map Prod.fst := by
  induction items generalizing acc with
  | nil => exact hsub
  | cons g rest ih =>
      exact ih (stepTask pm pd now pid acc g)
        (stepTask_sinv pm pd now pid acc.1 acc.2 g hs)
        (stepTask_tids_sub pm pd now pid acc.1 acc.2 g hs hsub)

/-- The positional behaviour of the per-task loop: the item at position `ji`
is assigned the fresh identifier `acc.1.ctr + ji`; if it is eligible its
converted task and `task_id_to_original` entry are stored under that key and
the key is appended to the accumulated identifier list, and if it is deleted
or hidden the key is bound to nothing and appears in no list. -/
theorem foldTasks_at (pm : String → Option Int) (pd : String → Option String) (now : Int)
    (pid : Nat) (items : List GTask) (acc : CState × List Nat) (hs : SInv acc.1)
    (ht : ∀ x ∈ acc.2, x < acc.1.ctr) (ji : Nat) (g : GTask)
    (hg : items.get? ji = some g) :
    ((g.deleted || g.hidden) = false →
      (acc.1.ctr + ji) ∈ (items.foldl (stepTask pm pd now pid) acc).2 ∧
      alookup (items.foldl (stepTask pm pd now pid) acc).1.t2o (acc.1.ctr + ji) = some g ∧
      (alookup (items.foldl (stepTask pm pd now pid) acc).1.allTasks
        (acc.1.ctr + ji)).isSome) ∧
    ((g.deleted || g.hidden) = true →
      (acc.1.ctr + ji) ∉ (items.foldl (stepTask pm pd now pid) acc).2 ∧
      alookup (items.foldl (stepTask pm pd now pid) acc).1.allTasks (acc.1.ctr + ji) = none) := by
  induction items generalizing acc ji with
  | nil => cases hg
  | cons g0 rest ih =>
      cases ji with
      | zero =>
          simp only [List.get?] at hg
          cases hg
          rw [List.foldl_cons]
          have hstep := stepTask_eq pm pd now pid acc.1 acc.2 g hs
          have hs2 : SInv (stepTask pm pd now pid acc g).1 :=
            stepTask_sinv pm pd now pid acc.1 acc.2 g hs
          have hctr2 : (stepTask pm pd now pid acc g).1.ctr = acc.1.ctr + 1 :=
            stepTask_ctr pm pd now pid acc g
          have hk2 : acc.1.ctr + 0 < (stepTask pm pd now pid acc g).1.ctr := by
            rw [hctr2]; omega
          have hrest := foldTasks_lookup_lt pm pd now pid rest
            (stepTask pm pd now pid acc g) hs2 hk2
          simp only [Nat.add_zero] at hrest
          have hnin : acc.1.ctr ∉ acc.1.allTasks.map Prod.fst := fun hmem =>
            absurd (hs.taskKeysLt _ hmem) (lt_irrefl _)
          have hninT : alookup acc.1.allTasks acc.1.ctr = none :=
            alookup_eq_none_of_not_mem_keys hnin
          have hninO : alookup acc.1.t2o acc.1.ctr = none := by
            refine alookup_eq_none_of_not_mem_keys ?_
            rw [← hs.keysEq]
            exact hnin
          constructor
          · intro helig
            have hc : ∃ t, convert_task_with_assigned_id pm pd now g pid acc.1.ctr
                (if g.id.getD "" ≠ "" ∧ alookup acc.1.idMap (g.id.getD "") = none
                 then acc.1.idMap ++ [(g.id.getD "", acc.1.ctr)] else acc.1.idMap) = some t := by
              cases hcc : convert_task_with_assigned_id pm pd now g pid acc.1.ctr
                  (if g.id.getD "" ≠ "" ∧ alookup acc.1.idMap (g.id.getD "") = none
                   then acc.1.idMap ++ [(g.id.getD "", acc.1.ctr)] else acc.1.idMap) with
              | none =>
                  rw [conv_eq_none_iff] at hcc
                  rw [helig] at hcc
                  cases hcc
              | some t => exact ⟨t, rfl⟩
            obtain ⟨t, hc⟩ := hc
            have hstep2 : stepTask pm pd now pid (acc.1, acc.2) g =
                (⟨acc.1.ctr + 1,
                  if g.id.getD "" ≠ "" ∧ alookup acc.1.idMap (g.id.getD "") = none
                  then acc.1.idMap ++ [(g.id.getD "", acc.1.ctr)] else acc.1.idMap,
                  acc.1.allTasks ++ [(acc.1.ctr, t)], acc.1.t2o ++ [(acc.1.ctr, g)]⟩,
                  acc.2 ++ [acc.1.ctr]) := by
              rw [hstep]
              simp only [hc]
            refine ⟨?_, ?_, ?_⟩
            · rw [Nat.add_zero, hrest.2.2, hstep2]
              simp
            · rw [Nat.add_zero, hrest.2.1, hstep2]
              simp only
              rw [alookup_append_of_eq_none _ hninO]
              simp [alookup]
            · rw [Nat.add_zero, hrest.1, hstep2]
              simp only
              rw [alookup_append_of_eq_none _ hninT]
              simp [alookup]
          · intro hdrop
            have hc : convert_task_with_assigned_id pm pd now g pid acc.1.ctr
                (if g.id.getD "" ≠ "" ∧ alookup acc.1.idMap (g.id.getD "") = none
                 then acc.1.idMap ++ [(g.id.getD "", acc.1.ctr)] else acc.1.idMap) = none :=
              (conv_eq_none_iff pm pd now g pid acc.1.ctr _).mpr hdrop
            have hstep2 : stepTask pm pd now pid (acc.1, acc.2) g =
                (⟨acc.1.ctr + 1,
                  if g.id.getD "" ≠ "" ∧ alookup acc.1.idMap (g.id.getD "") = none
                  then acc.1.idMap ++ [(g.id.getD "", acc.1.ctr)] else acc.1.idMap,
                  acc.1.allTasks, acc.1.t2o⟩, acc.2) := by
              rw [hstep]
              simp only [hc]
            constructor
            · rw [Nat.add_zero, hrest.2.2, hstep2]
              intro hmem
              exact absurd (ht _ hmem) (lt_irrefl _)
            · rw [Nat.add_zero, hrest.1, hstep2]
              exact hninT
      | succ j =>
          simp only [List.get?] at hg
          rw [List.foldl_cons]
          have hs2 : SInv (stepTask pm pd now pid acc g0).1 :=
            stepTask_sinv pm pd now pid acc.1 acc.2 g0 hs
          have ht2 : ∀ x ∈ (stepTask pm pd now pid acc g0).2,
              x < (stepTask pm pd now pid acc g0).1.ctr :=
            stepTask_tids_lt pm pd now pid acc g0 ht
          have hshift : acc.1.ctr + (j + 1) = (stepTask pm pd now pid acc g0).1.ctr + j := by
            rw [stepTask_ctr]
            omega
          rw [hshift]
          exact ih (stepTask pm pd now pid acc g0) hs2 ht2 j hg

-- ===========================================================================
-- Occurrence positions and their generated identifiers
-- ===========================================================================

/-- The number of identifiers `convert_task_list` draws for one group: one
for the project plus one per item. -/
def listSlots (tl : GTaskList) : Nat := (tl.items.getD []).length + 1

/-- The number of identifiers drawn before group `gi` starts. -/
def slotsBefore (doc : GDoc) (gi : Nat) : Nat :=
  ((doc.items.getD []).take gi).foldl (fun n tl => n + listSlots tl) 0

/-- The fresh identifier generated for the project of group `gi`. -/
def projectIdAt (doc : GDoc) (gi : Nat) : Nat := slotsBefore doc gi

/-- The fresh identifier generated for the source task at position `ji` of
group `gi` (drawn whether or not the task is eligible). -/
def assignedId (doc : GDoc) (gi ji : Nat) : Nat := slotsBefore doc gi + 1 + ji

-- ===========================================================================
-- convert_task_list lemmas
-- ===========================================================================

theorem ctl_ctr (pm : String → Option Int) (pd : String → Option String) (now : Int)
    (tl : GTaskList) (s0 : CState) :
    (convert_task_list pm pd now tl s0).1.ctr = s0.ctr + listSlots tl := by
  simp only [convert_task_list, listSlots]
  rw [foldTasks_ctr]
  simp only
  omega

theorem ctl_sinv (pm : String → Option Int) (pd : String → Option String) (now : Int)
    (tl : GTaskList) (s0 : CState) (hs : SInv s0) :
    SInv (convert_task_list pm pd now tl s0).1 := by
  simp only [convert_task_list]
  exact foldTasks_sinv pm pd now s0.ctr _ _ (sinv_bump hs)

theorem ctl_project (pm : String → Option Int) (pd : String → Option String) (now : Int)
    (tl : GTaskList) (s0 : CState) :
    (convert_task_list pm pd now tl s0).2.1.id = s0.ctr ∧
    (convert_task_list pm pd now tl s0).2.1.taskIds = (convert_task_list pm pd now tl s0).2.2 :=
  ⟨rfl, rfl⟩

theorem ctl_idMap_mono (pm : String → Option Int) (pd : String → Option String) (now : Int)
    (tl : GTaskList) (s0 : CState) {o : String} {v : Nat}
    (h : alookup s0.idMap o = some v) :
    alookup (convert_task_list pm pd now tl s0).1.idMap o = some v := by
  simp only [convert_task_list]
  exact foldTasks_idMap_mono pm pd now s0.ctr _ _ h

theorem ctl_idMap_miss (pm : String → Option Int) (pd : String → Option String) (now : Int)
    (tl : GTaskList) (s0 : CState) {o : String}
    (ho : ∀ g ∈ tl.items.getD [], g.id.getD "" ≠ o) :
    alookup (convert_task_list pm pd now tl s0).1.idMap o = alookup s0.idMap o := by
  simp only [convert_task_list]
  exact foldTasks_idMap_miss pm pd now s0.ctr _ _ ho

theorem ctl_lookup_lt (pm : String → Option Int) (pd : String → Option String) (now : Int)
    (tl : GTaskList) (s0 : CState) (hs : SInv s0) {k : Nat} (hk : k < s0.ctr + 1) :
    alookup (convert_task_list pm pd now tl s0).1.allTasks k = alookup s0.allTasks k ∧
    alookup (convert_task_list pm pd now tl s0).1.t2o k = alookup s0.t2o k := by
  simp only [convert_task_list]
  have h := foldTasks_lookup_lt pm pd now s0.ctr (tl.items.getD [])
    ({ s0 with ctr := s0.ctr + 1 }, []) (sinv_bump hs) hk
  exact ⟨h.1, h.2.1⟩

theorem ctl_tids_lt (pm : String → Option Int) (pd : String → Option String) (now : Int)
    (tl : GTaskList) (s0 : CState) :
    ∀ x ∈ (convert_task_list pm pd now tl s0).2.2,
      x < (convert_task_list pm pd now tl s0).1.ctr := by
  simp only [convert_task_list]
  exact foldTasks_tids_lt pm pd now s0.ctr _ _ (by intro x hx; cases hx)

theorem ctl_tids_sub (pm : String → Option Int) (pd : String → Option String) (now : Int)
    (tl : GTaskList) (s0 : CState) (hs : SInv s0) :
    ∀ x ∈ (convert_task_list pm pd now tl s0).2.2,
      x ∈ (convert_task_list pm pd now tl s0).1.allTasks.map Prod.fst := by
  simp only [convert_task_list]
  exact foldTasks_tids_sub pm pd now s0.ctr _ _ (sinv_bump hs) (by intro x hx; cases hx)

/-- Positional behaviour of one group: the item at position `ji` gets the
identifier `s0.ctr + 1 + ji`. -/
theorem ctl_at (pm : String → Option Int) (pd : String → Option String) (now : Int)
    (tl : GTaskList) (s0 : CState) (hs : SInv s0) (ji : Nat) (g : GTask)
    (hg : (tl.items.getD []).get? ji = some g) :
    ((g.deleted || g.hidden) = false →
      (s0.ctr + 1 + ji) ∈ (convert_task_list pm pd now tl s0).2.2 ∧
      alookup (convert_task_list pm pd now tl s0).1.t2o (s0.ctr + 1 + ji) = some g ∧
      (alookup (convert_task_list pm pd now tl s0).1.allTasks (s0.ctr + 1 + ji)).isSome) ∧
    ((g.deleted || g.hidden) = true →
      (s0.ctr + 1 + ji) ∉ (convert_task_list pm pd now tl s0).2.2 ∧
      alookup (convert_task_list pm pd now tl s0).1.allTasks (s0.ctr + 1 + ji) = none) := by
  simp only [convert_task_list]
  exact foldTasks_at pm pd now s0.ctr (tl.items.getD []) ({ s0 with ctr := s0.ctr + 1 }, [])
    (sinv_bump hs) (by intro x hx; cases hx) ji g hg

-- ===========================================================================
-- Whole-document invariant and per-group step lemmas
-- ===========================================================================

/-- The running invariant of the whole-document state. -/
structure DInv (d : DState) : Prop where
  sinv : SInv d.cs
  projKeysLt : ∀ k ∈ d.projects.map Prod.fst, k < d.cs.ctr
  projKeysNodup : (d.projects.map Prod.fst).Nodup
  projTaskDisj : ∀ k ∈ d.projects.map Prod.fst, k ∉ d.cs.allTasks.map Prod.fst
  ptidsEq : d.ptids = d.projects.map (fun e => (e.1, e.2.taskIds))
  tidsSub : ∀ e ∈ d.projects, ∀ x ∈ e.2.taskIds, x ∈ d.cs.allTasks.map Prod.fst
  projIdEq : ∀ e ∈ d.projects, e.2.id = e.1

theorem dinv_init : DInv initDState := by
  refine ⟨sinv_init, ?_, List.nodup_nil, ?_, rfl, ?_, ?_⟩ <;> intro e he <;> cases he

/-- Explicit form of one `stepList` iteration under the invariant. -/
theorem stepList_eq (pm : String → Option Int) (pd : String → Option String) (now : Int)
    (d : DState) (tl : GTaskList) (hd : DInv d) :
    stepList pm pd now d tl =
      ⟨(convert_task_list pm pd now tl d.cs).1,
        d.projects ++ [((convert_task_list pm pd now tl d.cs).2.1.id,
          (convert_task_list pm pd now tl d.cs).2.1)],
        d.ptids ++ [((convert_task_list pm pd now tl d.cs).2.1.id,
          (convert_task_list pm pd now tl d.cs).2.2)]⟩ := by
  have hid : (convert_task_list pm pd now tl d.cs).2.1.id = d.cs.ctr :=
    (ctl_project pm pd now tl d.cs).1
  have hninP : (convert_task_list pm pd now tl d.cs).2.1.id ∉ d.projects.map Prod.fst := by
    rw [hid]
    exact fun hmem => absurd (hd.projKeysLt _ hmem) (lt_irrefl _)
  have hninQ : (convert_task_list pm pd now tl d.cs).2.1.id ∉ d.ptids.map Prod.fst := by
    rw [hd.ptidsEq]
    intro hmem
    simp only [List.map_map] at hmem
    exact hninP (by simpa using hmem)
  simp only [stepList]
  rw [dinsert_eq_append_of_not_mem _ hninP, dinsert_eq_append_of_not_mem _ hninQ]

theorem stepList_ctr (pm : String → Option Int) (pd : String → Option String) (now : Int)
    (d : DState) (tl : GTaskList) :
    (stepList pm pd now d tl).cs.ctr = d.cs.ctr + listSlots tl := by
  simp only [stepList]
  exact ctl_ctr pm pd now tl d.cs

theorem mem_keys_preserved (pm : String → Option Int) (pd : String → Option String) (now : Int)
    (tl : GTaskList) (s0 : CState) (hs : SInv s0) {k : Nat}
    (hk : k ∈ s0.allTasks.map Prod.fst) :
    k ∈ (convert_task_list pm pd now tl s0).1.allTasks.map Prod.fst := by
  have hlt : k < s0.ctr + 1 := Nat.lt_succ_of_lt (hs.taskKeysLt k hk)
  have hsome := alookup_isSome_of_mem_keys hk
  obtain ⟨v, hv⟩ := Option.isSome_iff_exists.mp hsome
  have := (ctl_lookup_lt pm pd now tl s0 hs hlt).1
  rw [hv] at this
  exact mem_keys_of_alookup_eq_some this

theorem not_mem_keys_preserved (pm : String → Option Int) (pd : String → Option String)
    (now : Int) (tl : GTaskList) (s0 : CState) (hs : SInv s0) {k : Nat} (hlt : k < s0.ctr + 1)
    (hk : k ∉ s0.allTasks.map Prod.fst) :
    k ∉ (convert_task_list pm pd now tl s0).1.allTasks.map Prod.fst := by
  intro hmem
  have hsome := alookup_isSome_of_mem_keys hmem
  rw [(ctl_lookup_lt pm pd now tl s0 hs hlt).1, alookup_eq_none_of_not_mem_keys hk] at hsome
  cases hsome

theorem stepList_dinv (pm : String → Option Int) (pd : String → Option String) (now : Int)
    (d : DState) (tl : GTaskList) (hd : DInv d) : DInv (stepList pm pd now d tl) := by
  rw [stepList_eq pm pd now d tl hd]
  have hid : (convert_task_list pm pd now tl d.cs).2.1.id = d.cs.ctr :=
    (ctl_project pm pd now tl d.cs).1
  have hctr : (convert_task_list pm pd now tl d.cs).1.ctr = d.cs.ctr + listSlots tl :=
    ctl_ctr pm pd now tl d.cs
  have hslots : 1 ≤ listSlots tl := Nat.le_add_left 1 _
  refine ⟨ctl_sinv pm pd now tl d.cs hd.sinv, ?_, ?_, ?_, ?_, ?_, ?_⟩
  · intro k hk
    simp only [List.map_append, List.map_cons, List.map_nil, List.mem_append,
      List.mem_singleton] at hk
    rw [hctr]
    rcases hk with hk | hk
    · have := hd.projKeysLt k hk
      omega
    · rw [hk, hid]
      omega
  · simp only [List.map_append, List.map_cons, List.map_nil]
    rw [List.nodup_append]
    refine ⟨hd.projKeysNodup, List.nodup_singleton _, ?_⟩
    intro a ha hb
    simp only [List.mem_singleton] at hb
    rw [hb, hid] at ha
    exact absurd (hd.projKeysLt _ ha) (lt_irrefl _)
  · intro k hk
    simp only [List.map_append, List.map_cons, List.map_nil, List.mem_append,
      List.mem_singleton] at hk
    rcases hk with hk | hk
    · exact not_mem_keys_preserved pm pd now tl d.cs hd.sinv
        (Nat.lt_succ_of_lt (hd.projKeysLt k hk)) (hd.projTaskDisj k hk)
    · rw [hk, hid]
      refine not_mem_keys_preserved pm pd now tl d.cs hd.sinv (Nat.lt_succ_self _) ?_
      exact fun hmem => absurd (hd.sinv.taskKeysLt _ hmem) (lt_irrefl _)
  · simp only [List.map_append, List.map_cons, List.map_nil, hd.ptidsEq,
      (ctl_project pm pd now tl d.cs).2]
  · intro e he
    rcases List.mem_append.mp he with he | he
    · intro x hx
      exact mem_keys_preserved pm pd now tl d.cs hd.sinv (hd.tidsSub e he x hx)
    · simp only [List.mem_singleton] at he
      subst he
      intro x hx
      simp only at hx
      exact ctl_tids_sub pm pd now tl d.cs hd.sinv x
        (by rw [← (ctl_project pm pd now tl d.cs).2]; exact hx)
  · intro e he
    rcases List.mem_append.mp he with he | he
    · exact hd.projIdEq e he
    · simp only [List.mem_singleton] at he
      subst he
      rfl

theorem stepList_idMap_mono (pm : String → Option Int) (pd : String → Option String)
    (now : Int) (d : DState) (tl : GTaskList) {o : String} {v : Nat}
    (h : alookup d.cs.idMap o = some v) :
    alookup (stepList pm pd now d tl).cs.idMap o = some v := by
  simp only [stepList]
  exact ctl_idMap_mono pm pd now tl d.cs h

theorem stepList_idMap_miss (pm : String → Option Int) (pd : String → Option String)
    (now : Int) (d : DState) (tl : GTaskList) {o : String}
    (ho : ∀ g ∈ tl.items.getD [], g.id.getD "" ≠ o) :
    alookup (stepList pm pd now d tl).cs.idMap o = alookup d.cs.idMap o := by
  simp only [stepList]
  exact ctl_idMap_miss pm pd now tl d.cs ho

theorem stepList_lookup_lt (pm : String → Option Int) (pd : String → Option String)
    (now : Int) (d : DState) (tl : GTaskList) (hd : DInv d) {k : Nat} (hk : k < d.cs.ctr) :
    alookup (stepList pm pd now d tl).cs.allTasks k = alookup d.cs.allTasks k ∧
    alookup (stepList pm pd now d tl).cs.t2o k = alookup d.cs.t2o k ∧
    alookup (stepList pm pd now d tl).projects k = alookup d.projects k ∧
    alookup (stepList pm pd now d tl).ptids k = alookup d.ptids k := by
  rw [stepList_eq pm pd now d tl hd]
  have hid : (convert_task_list pm pd now tl d.cs).2.1.id = d.cs.ctr :=
    (ctl_project pm pd now tl d.cs).1
  have hkne : (convert_task_list pm pd now tl d.cs).2.1.id ≠ k := by
    rw [hid]
    exact fun h => absurd (h ▸ hk) (lt_irrefl _)
  have h := ctl_lookup_lt pm pd now tl d.cs hd.sinv (Nat.lt_succ_of_lt hk)
  refine ⟨h.1, h.2, ?_, ?_⟩
  · rw [alookup_append]
    cases hq : alookup d.projects k with
    | none => simp [hq, alookup, hkne]
    | some v => simp [hq]
  · rw [alookup_append]
    cases hq : alookup d.ptids k with
    | none => simp [hq, alookup, hkne]
    | some v => simp [hq]

-- ===========================================================================
-- Whole-document fold lemmas
-- ===========================================================================

theorem slotsFold_shift (l : List GTaskList) (n : Nat) :
    l.foldl (fun m tl => m + listSlots tl) n =
      n + l.foldl (fun m tl => m + listSlots tl) 0 := by
  induction l generalizing n with
  | nil => simp
  | cons tl rest ih =>
      simp only [List.foldl_cons]
      rw [ih (n + listSlots tl), ih (0 + listSlots tl)]
      omega

theorem foldDoc_ctr (pm : String → Option Int) (pd : String → Option String) (now : Int)
    (groups : List GTaskList) (d0 : DState) :
    (groups.foldl (stepList pm pd now) d0).cs.ctr =
      d0.cs.ctr + groups.foldl (fun m tl => m + listSlots tl) 0 := by
  induction groups generalizing d0 with
  | nil => simp
  | cons tl rest ih =>
      simp only [List.foldl_cons]
      rw [ih (stepList pm pd now d0 tl), stepList_ctr, slotsFold_shift rest (0 + listSlots tl)]
      omega

theorem foldDoc_dinv (pm : String → Option Int) (pd : String → Option String) (now : Int)
    (groups : List GTaskList) (d0 : DState) (hd : DInv d0) :
    DInv (groups.foldl (stepList pm pd now) d0) := by
  induction groups generalizing d0 with
  | nil => exact hd
  | cons tl rest ih => exact ih _ (stepList_dinv pm pd now d0 tl hd)

theorem foldDoc_idMap_mono (pm : String → Option Int) (pd : String → Option String)
    (now : Int) (groups : List GTaskList) (d0 : DState) {o : String} {v : Nat}
    (h : alookup d0.cs.idMap o = some v) :
    alookup (groups.foldl (stepList pm pd now) d0).cs.idMap o = some v := by
  induction groups generalizing d0 with
  | nil => exact h
  | cons tl rest ih => exact ih _ (stepList_idMap_mono pm pd now d0 tl h)

theorem foldDoc_idMap_miss (pm : String → Option Int) (pd : String → Option String)
    (now : Int) (groups : List GTaskList) (d0 : DState) {o : String}
    (ho : ∀ tl ∈ groups, ∀ g ∈ tl.items.getD [], g.id.getD "" ≠ o) :
    alookup (groups.foldl (stepList pm pd now) d0).cs.idMap o = alookup d0.cs.idMap o := by
  induction groups generalizing d0 with
  | nil => rfl
  | cons tl rest ih =>
      rw [List.foldl_cons, ih _ (fun tl' h1 => ho tl' (List.mem_cons_of_mem _ h1))]
      exact stepList_idMap_miss pm pd now d0 tl (ho tl (List.mem_cons_self _ _))

theorem foldDoc_lookup_lt (pm : String → Option Int) (pd : String → Option String)
    (now : Int) (groups : List GTaskList) (d0 : DState) (hd : DInv d0) {k : Nat}
    (hk : k < d0.cs.ctr) :
    alookup (groups.foldl (stepList pm pd now) d0).cs.allTasks k =
      alookup d0.cs.allTasks k ∧
    alookup (groups.foldl (stepList pm pd now) d0).cs.t2o k = alookup d0.cs.t2o k ∧
    alookup (groups.foldl (stepList pm pd now) d0).projects k = alookup d0.projects k ∧
    alookup (groups.foldl (stepList pm pd now) d0).ptids k = alookup d0.ptids k := by
  induction groups generalizing d0 with
  | nil => exact ⟨rfl, rfl, rfl, rfl⟩
  | cons tl rest ih =>
      have hstep := stepList_lookup_lt pm pd now d0 tl hd hk
      have hk2 : k < (stepList pm pd now d0 tl).cs.ctr := by
        rw [stepList_ctr]
        have : 1 ≤ listSlots tl := Nat.le_add_left 1 _
        omega
      have hrest := ih (stepList pm pd now d0 tl) (stepList_dinv pm pd now d0 tl hd) hk2
      exact ⟨hrest.1.trans hstep.1, hrest.2.1.trans hstep.2.1,
        hrest.2.2.1.trans hstep.2.2.1, hrest.2.2.2.trans hstep.2.2.2⟩

theorem firstPass_dinv (pm : String → Option Int) (pd : String → Option String) (now : Int)
    (doc : GDoc) : DInv (firstPass pm pd now doc) :=
  foldDoc_dinv pm pd now _ _ dinv_init

/-- The counter of the prefix fold before group `gi` is `slotsBefore`. -/
theorem prefix_ctr (pm : String → Option Int) (pd : String → Option String) (now : Int)
    (doc : GDoc) (gi : Nat) :
    (((doc.items.getD []).take gi).foldl (stepList pm pd now) initDState).cs.ctr =
      slotsBefore doc gi := by
  rw [foldDoc_ctr]
  show 0 + _ = _
  rw [Nat.zero_add]
  rfl

theorem list_decomp_at {α : Type} (l : List α) (i : Nat) (a : α) (h : l.get? i = some a) :
    l = l.take i ++ a :: l.drop (i + 1) ∧ (l.take i).length = i ∧ i < l.length := by
  obtain ⟨hlt, hget⟩ := List.get?_eq_some.mp h
  refine ⟨?_, List.length_take_of_le (Nat.le_of_lt hlt), hlt⟩
  have hgete : l[i] = a := by
    rw [← hget]
    simp [List.get_eq_getElem]
  have h2 : l.drop i = a :: l.drop (i + 1) := by
    rw [List.drop_eq_getElem_cons hlt, hgete]
  conv_lhs => rw [← List.take_append_drop i l]
  rw [h2]

theorem firstPass_eq_decomp (pm : String → Option Int) (pd : String → Option String)
    (now : Int) (doc : GDoc) (gi : Nat) (gl : GTaskList)
    (hgl : (doc.items.getD []).get? gi = some gl) :
    firstPass pm pd now doc =
      ((doc.items.getD []).drop (gi + 1)).foldl (stepList pm pd now)
        (stepList pm pd now
          (((doc.items.getD []).take gi).foldl (stepList pm pd now) initDState) gl) := by
  obtain ⟨hsplit, -, -⟩ := list_decomp_at _ gi gl hgl
  simp only [firstPass]
  conv_lhs => rw [hsplit]
  rw [List.foldl_append, List.foldl_cons]

/-- Mapping insertion inside one group: if the original identifier of the
item at position `ji` is truthy and not yet in the mapping, the group run
binds it to the fresh identifier of that position. -/
theorem ctl_idMap_first (pm : String → Option Int) (pd : String → Option String) (now : Int)
    (tl : GTaskList) (s0 : CState) (ji : Nat) (g : GTask)
    (hg : (tl.items.getD []).get? ji = some g)
    (hoid : g.id.getD "" ≠ "")
    (hnone : alookup s0.idMap (g.id.getD "") = none)
    (hb2 : ∀ g' ∈ (tl.items.getD []).take ji, g'.id.getD "" ≠ g.id.getD "") :
    alookup (convert_task_list pm pd now tl s0).1.idMap (g.id.getD "") =
      some (s0.ctr + 1 + ji) := by
  obtain ⟨hsplit, hlen, hlt⟩ := list_decomp_at _ ji g hg
  simp only [convert_task_list]
  conv_lhs => rw [hsplit]
  rw [List.foldl_append, List.foldl_cons]
  have hA := foldTasks_idMap_miss pm pd now s0.ctr ((tl.items.getD []).take ji)
    ({ s0 with ctr := s0.ctr + 1 }, []) hb2
  have hActr := foldTasks_ctr pm pd now s0.ctr ((tl.items.getD []).take ji)
    ({ s0 with ctr := s0.ctr + 1 }, [])
  rw [hlen] at hActr
  have hAnone : alookup (((tl.items.getD []).take ji).foldl (stepTask pm pd now s0.ctr)
      ({ s0 with ctr := s0.ctr + 1 }, [])).1.idMap (g.id.getD "") = none := by
    rw [hA]
    exact hnone
  have hins := stepTask_idMap_insert pm pd now s0.ctr
    (((tl.items.getD []).take ji).foldl (stepTask pm pd now s0.ctr)
      ({ s0 with ctr := s0.ctr + 1 }, [])) g hoid hAnone
  rw [hActr] at hins
  exact foldTasks_idMap_mono pm pd now s0.ctr ((tl.items.getD []).drop (ji + 1))
    (stepTask pm pd now s0.ctr (((tl.items.getD []).take ji).foldl (stepTask pm pd now s0.ctr)
      ({ s0 with ctr := s0.ctr + 1 }, [])) g) hins

/-- The ID mapping after the whole run binds an original identifier whose
first occurrence is the item at `(gi, ji)` to the identifier generated
there, irrespective of eligibility and of later occurrences. -/
theorem firstPass_idMap_first (pm : String → Option Int) (pd : String → Option String)
    (now : Int) (doc : GDoc) (gi ji : Nat) (gl : GTaskList) (g : GTask)
    (hgl : (doc.items.getD []).get? gi = some gl)
    (hg : (gl.items.getD []).get? ji = some g)
    (hoid : g.id.getD "" ≠ "")
    (hb1 : ∀ gl' ∈ (doc.items.getD []).take gi, ∀ g' ∈ gl'.items.getD [],
      g'.id.getD "" ≠ g.id.getD "")
    (hb2 : ∀ g' ∈ (gl.items.getD []).take ji, g'.id.getD "" ≠ g.id.getD "") :
    alookup (firstPass pm pd now doc).cs.idMap (g.id.getD "") =
      some (assignedId doc gi ji) := by
  rw [firstPass_eq_decomp pm pd now doc gi gl hgl]
  have hPnone : alookup (((doc.items.getD []).take gi).foldl (stepList pm pd now)
      initDState).cs.idMap (g.id.getD "") = none := by
    rw [foldDoc_idMap_miss pm pd now _ _ hb1]
    rfl
  have hPctr := prefix_ctr pm pd now doc gi
  have hstep : alookup (stepList pm pd now (((doc.items.getD []).take gi).foldl
      (stepList pm pd now) initDState) gl).cs.idMap (g.id.getD "") =
      some (assignedId doc gi ji) := by
    simp only [stepList]
    rw [ctl_idMap_first pm pd now gl _ ji g hg hoid hPnone hb2, hPctr]
    rfl
  exact foldDoc_idMap_mono pm pd now _ _ hstep

/-- Positional behaviour of the whole first pass on an eligible source task:
its converted task and original record are stored under `assignedId`, and
that identifier is in its group's project record (arrival list). -/
theorem firstPass_at_eligible (pm : String → Option Int) (pd : String → Option String)
    (now : Int) (doc : GDoc) (gi ji : Nat) (gl : GTaskList) (g : GTask)
    (hgl : (doc.items.getD []).get? gi = some gl)
    (hg : (gl.items.getD []).get? ji = some g)
    (helig : (g.deleted || g.hidden) = false) :
    alookup (firstPass pm pd now doc).cs.t2o (assignedId doc gi ji) = some g ∧
    (alookup (firstPass pm pd now doc).cs.allTasks (assignedId doc gi ji)).isSome ∧
    ∃ pr : Project, alookup (firstPass pm pd now doc).projects (projectIdAt doc gi) = some pr ∧
      pr.id = projectIdAt doc gi ∧ assignedId doc gi ji ∈ pr.taskIds := by
  obtain ⟨-, -, hjilt⟩ := list_decomp_at _ ji g hg
  rw [firstPass_eq_decomp pm pd now doc gi gl hgl]
  have hPd : DInv (((doc.items.getD []).take gi).foldl (stepList pm pd now) initDState) :=
    foldDoc_dinv pm pd now _ _ dinv_init
  have hPctr := prefix_ctr pm pd now doc gi
  have hat := ctl_at pm pd now gl (((doc.items.getD []).take gi).foldl (stepList pm pd now)
    initDState).cs hPd.sinv ji g hg
  have helig2 := hat.1 helig
  rw [hPctr] at helig2
  have hkey : slotsBefore doc gi + 1 + ji = assignedId doc gi ji := rfl
  have hid : (convert_task_list pm pd now gl (((doc.items.getD []).take gi).foldl
      (stepList pm pd now) initDState).cs).2.1.id = projectIdAt doc gi := by
    rw [(ctl_project pm pd now gl _).1, hPctr]
    rfl
  have hQd : DInv (stepList pm pd now (((doc.items.getD []).take gi).foldl
      (stepList pm pd now) initDState) gl) :=
    stepList_dinv pm pd now _ gl hPd
  have hQctr : (stepList pm pd now (((doc.items.getD []).take gi).foldl
      (stepList pm pd now) initDState) gl).cs.ctr =
      slotsBefore doc gi + listSlots gl := by
    rw [stepList_ctr, hPctr]
  have hklt : assignedId doc gi ji < (stepList pm pd now (((doc.items.getD []).take gi).foldl
      (stepList pm pd now) initDState) gl).cs.ctr := by
    rw [hQctr]
    simp only [assignedId, listSlots]
    omega
  have hpidlt : projectIdAt doc gi < (stepList pm pd now (((doc.items.getD []).take gi).foldl
      (stepList pm pd now) initDState) gl).cs.ctr := by
    rw [hQctr]
    simp only [projectIdAt, listSlots]
    omega
  have htail := foldDoc_lookup_lt pm pd now ((doc.items.getD []).drop (gi + 1)) _ hQd hklt
  have htailP := foldDoc_lookup_lt pm pd now ((doc.items.getD []).drop (gi + 1)) _ hQd hpidlt
  refine ⟨?_, ?_, ?_⟩
  · rw [htail.2.1]
    have : (stepList pm pd now (((doc.items.getD []).take gi).foldl (stepList pm pd now)
        initDState) gl).cs = (convert_task_list pm pd now gl (((doc.items.getD []).take gi).foldl
        (stepList pm pd now) initDState).cs).1 := rfl
    rw [this, hkey] at *
    exact hkey ▸ helig2.2.1
  · rw [htail.1]
    exact hkey ▸ helig2.2.2
  · have hQproj := stepList_eq pm pd now (((doc.items.getD []).take gi).foldl
      (stepList pm pd now) initDState) gl hPd
    have hPnone : alookup (((doc.items.getD []).take gi).foldl (stepList pm pd now)
        initDState).projects (projectIdAt doc gi) = none := by
      refine alookup_eq_none_of_not_mem_keys ?_
      intro hmem
      have := hPd.projKeysLt _ hmem
      rw [hPctr] at this
      exact absurd this (lt_irrefl _)
    refine ⟨(convert_task_list pm pd now gl (((doc.items.getD []).take gi).foldl
      (stepList pm pd now) initDState).cs).2.1, ?_, hid, ?_⟩
    · rw [htailP.2.2.1, hQproj]
      simp only
      rw [alookup_append_of_eq_none _ hPnone]
      simp [alookup, hid]
    · rw [(ctl_project pm pd now gl _).2]
      exact hkey ▸ helig2.1

/-- Positional behaviour on a deleted or hidden source task: the identifier
drawn for it is bound to no converted task. -/
theorem firstPass_at_dropped (pm : String → Option Int) (pd : String → Option String)
    (now : Int) (doc : GDoc) (gi ji : Nat) (gl : GTaskList) (g : GTask)
    (hgl : (doc.items.getD []).get? gi = some gl)
    (hg : (gl.items.getD []).get? ji = some g)
    (hdrop : (g.deleted || g.hidden) = true) :
    alookup (firstPass pm pd now doc).cs.allTasks (assignedId doc gi ji) = none := by
  obtain ⟨-, -, hjilt⟩ := list_decomp_at _ ji g hg
  rw [firstPass_eq_decomp pm pd now doc gi gl hgl]
  have hPd : DInv (((doc.items.getD []).take gi).foldl (stepList pm pd now) initDState) :=
    foldDoc_dinv pm pd now _ _ dinv_init
  have hPctr := prefix_ctr pm pd now doc gi
  have hat := ctl_at pm pd now gl (((doc.items.getD []).take gi).foldl (stepList pm pd now)
    initDState).cs hPd.sinv ji g hg
  have hdrop2 := hat.2 hdrop
  rw [hPctr] at hdrop2
  have hQd : DInv (stepList pm pd now (((doc.items.getD []).take gi).foldl
      (stepList pm pd now) initDState) gl) :=
    stepList_dinv pm pd now _ gl hPd
  have hklt : assignedId doc gi ji < (stepList pm pd now (((doc.items.getD []).take gi).foldl
      (stepList pm pd now) initDState) gl).cs.ctr := by
    rw [stepList_ctr, hPctr]
    simp only [assignedId, listSlots]
    omega
  have htail := foldDoc_lookup_lt pm pd now ((doc.items.getD []).drop (gi + 1)) _ hQd hklt
  rw [htail.1]
  exact hdrop2.2

-- ===========================================================================
-- Second-pass lemmas (build_subtask_relationships)
-- ===========================================================================

/-- When the second pass actually rewires the task at a given original
record: its declared parent is truthy, the mapping resolves it, and the
resolved identifier is a key of the task table. -/
def resolvedParent (idMap : List (String × Nat)) (tkeys : List Nat) (g : GTask) : Option Nat :=
  match g.parent with
  | none => none
  | some p =>
    if p = "" then none
    else
      match alookup idMap p with
      | none => none
      | some u => if u ∈ tkeys then some u else none

theorem resolvedParent_eq_some_intro {M : List (String × Nat)} {ks : List Nat} {g : GTask}
    {p : String} {u : Nat} (hp : g.parent = some p) (hpe : p ≠ "")
    (hm : alookup M p = some u) (hu : u ∈ ks) : resolvedParent M ks g = some u := by
  simp [resolvedParent, hp, hpe, hm, hu]

theorem alookup_split {κ α : Type} [DecidableEq κ] {l : List (κ × α)} {k : κ} {v : α}
    (h : alookup l k = some v) :
    ∃ pre post, l = pre ++ (k, v) :: post ∧ k ∉ pre.map Prod.fst := by
  induction l with
  | nil => cases h
  | cons e t ih =>
      by_cases he : e.1 = k
      · simp only [alookup, he, if_pos] at h
        cases h
        refine ⟨[], t, ?_, by simp⟩
        simp only [List.nil_append, List.cons.injEq, and_true]
        rw [← he]
      · simp only [alookup, he, if_false] at h
        obtain ⟨pre, post, h1, h2⟩ := ih h
        refine ⟨e :: pre, post, by rw [h1, List.cons_append], ?_⟩
        simp only [List.map_cons, List.mem_cons]
        push_neg
        exact ⟨fun hc => he hc.symm, h2⟩

theorem dupdate_append_left {κ α : Type} [DecidableEq κ] (f : α → α) (l1 l2 : List (κ × α))
    (k : κ) (h : k ∉ l1.map Prod.fst) :
    dupdate f (l1 ++ l2) k = l1 ++ dupdate f l2 k := by
  induction l1 with
  | nil => rfl
  | cons e t ih =>
      simp only [List.map_cons, List.mem_cons] at h
      push_neg at h
      simp only [List.cons_append, dupdate, if_neg (Ne.symm h.1)]
      show e :: dupdate f (t ++ l2) k = e :: (t ++ dupdate f l2 k)
      rw [ih h.2]

/-- `dupdate` with a field-preserving function preserves the image of that
field under every lookup. -/
theorem alookup_dupdate_none {κ α : Type} [DecidableEq κ] (f : α → α) {l : List (κ × α)}
    {j : κ} (hv : alookup l j = none) : alookup (dupdate f l j) j = none := by
  refine alookup_eq_none_of_not_mem_keys ?_
  rw [dupdate_keys]
  intro hm
  have hs := alookup_isSome_of_mem_keys hm
  rw [hv] at hs
  cases hs

theorem map_parentId_dupdate {f : SPTask → SPTask} (hf : ∀ t, (f t).parentId = t.parentId)
    (l : List (Nat × SPTask)) (j u : Nat) :
    Option.map SPTask.parentId (alookup (dupdate f l j) u) =
      Option.map SPTask.parentId (alookup l u) := by
  by_cases hj : j = u
  · subst hj
    cases hv : alookup l j with
    | none => rw [alookup_dupdate_none f hv]
    | some v =>
        rw [alookup_dupdate_self f hv]
        simp [hf]
  · rw [alookup_dupdate_ne f l hj]

theorem map_count_dupdate {k : Nat} {f : SPTask → SPTask}
    (hf : ∀ t, (f t).subTaskIds.count k = t.subTaskIds.count k)
    (l : List (Nat × SPTask)) (j u : Nat) :
    Option.map (fun t => t.subTaskIds.count k) (alookup (dupdate f l j) u) =
      Option.map (fun t => t.subTaskIds.count k) (alookup l u) := by
  by_cases hj : j = u
  · subst hj
    cases hv : alookup l j with
    | none => rw [alookup_dupdate_none f hv]
    | some v =>
        rw [alookup_dupdate_self f hv]
        simp [hf]
  · rw [alookup_dupdate_ne f l hj]

theorem map_subs_dupdate {f : SPTask → SPTask}
    (hf : ∀ t, (f t).subTaskIds = t.subTaskIds) (l : List (Nat × SPTask)) (j u : Nat) :
    Option.map SPTask.subTaskIds (alookup (dupdate f l j) u) =
      Option.map SPTask.subTaskIds (alookup l u) := by
  by_cases hj : j = u
  · subst hj
    cases hv : alookup l j with
    | none => rw [alookup_dupdate_none f hv]
    | some v =>
        rw [alookup_dupdate_self f hv]
        simp [hf]
  · rw [alookup_dupdate_ne f l hj]

theorem bsrStep_keys (M : List (String × Nat)) (acc : List (Nat × SPTask) × List Nat)
    (e : Nat × GTask) : (bsrStep M acc e).1.map Prod.fst = acc.1.map Prod.fst := by
  simp only [bsrStep]
  cases e.2.parent with
  | none => rfl
  | some p =>
      simp only
      split
      · rfl
      · split
        · rfl
        · cases alookup M p with
          | none => rfl
          | some pn =>
              simp only
              split
              · split
                · split
                  · simp [dupdate_keys]
                  · simp [dupdate_keys]
                · simp [dupdate_keys]
              · rfl

theorem bsrStep_offkey (M : List (String × Nat)) (acc : List (Nat × SPTask) × List Nat)
    (e : Nat × GTask) (k : Nat) (hne : e.1 ≠ k) :
    Option.map SPTask.parentId (alookup (bsrStep M acc e).1 k) =
      Option.map SPTask.parentId (alookup acc.1 k) ∧
    (∀ u, Option.map (fun t => t.subTaskIds.count k) (alookup (bsrStep M acc e).1 u) =
      Option.map (fun t => t.subTaskIds.count k) (alookup acc.1 u)) ∧
    (k ∈ (bsrStep M acc e).2 ↔ k ∈ acc.2) := by
  have hcnt : ∀ t : SPTask,
      (t.subTaskIds ++ [e.1]).count k = t.subTaskIds.count k := by
    intro t
    rw [List.count_append]
    simp [List.count_singleton, hne]
  simp only [bsrStep]
  cases e.2.parent with
  | none => exact ⟨rfl, fun u => rfl, Iff.rfl⟩
  | some p =>
      simp only
      split
      · exact ⟨rfl, fun u => rfl, Iff.rfl⟩
      · split
        · exact ⟨rfl, fun u => rfl, Iff.rfl⟩
        · cases alookup M p with
          | none => exact ⟨rfl, fun u => rfl, Iff.rfl⟩
          | some pn =>
              simp only
              split
              · refine ⟨?_, ?_, ?_⟩
                · split
                  · split
                    · rw [alookup_dupdate_ne _ _ hne]
                    · rw [@map_parentId_dupdate
                          (fun t => { t with subTaskIds := t.subTaskIds ++ [e.1] })
                          (fun t => rfl) _ pn k]
                      rw [alookup_dupdate_ne _ _ hne]
                  · rw [alookup_dupdate_ne _ _ hne]
                · intro u
                  split
                  · split
                    · exact @map_count_dupdate k
                        (fun t => { t with parentId := some pn }) (fun t => rfl) _ _ u
                    · rw [@map_count_dupdate k
                          (fun t => { t with subTaskIds := t.subTaskIds ++ [e.1] }) hcnt _ pn u]
                      exact @map_count_dupdate k
                        (fun t => { t with parentId := some pn }) (fun t => rfl) _ _ u
                  · exact @map_count_dupdate k
                      (fun t => { t with parentId := some pn }) (fun t => rfl) _ _ u
                · show k ∈ (if e.1 ∈ acc.2 then acc.2 else acc.2 ++ [e.1]) ↔ k ∈ acc.2
                  split
                  · exact Iff.rfl
                  · constructor
                    · intro hx
                      rcases List.mem_append.mp hx with hx | hx
                      · exact hx
                      · simp only [List.mem_singleton] at hx
                        exact absurd hx.symm hne
                    · exact fun hx => List.mem_append.mpr (Or.inl hx)
              · exact ⟨rfl, fun u => rfl, Iff.rfl⟩

theorem bsrStep_onkey (M : List (String × Nat)) (acc : List (Nat × SPTask) × List Nat)
    (k : Nat) (g : GTask) (hlook : (alookup acc.1 k).isSome) :
    (resolvedParent M (acc.1.map Prod.fst) g = none → bsrStep M acc (k, g) = acc) ∧
    (∀ u, resolvedParent M (acc.1.map Prod.fst) g = some u →
      Option.map SPTask.parentId (alookup (bsrStep M acc (k, g)).1 k) = some (some u) ∧
      k ∈ (bsrStep M acc (k, g)).2 ∧
      (∀ tu, alookup acc.1 u = some tu → tu.subTaskIds.count k = 0 →
        Option.map (fun t => t.subTaskIds.count k) (alookup (bsrStep M acc (k, g)).1 u) =
          some 1)) := by
  obtain ⟨tk, htk⟩ := Option.isSome_iff_exists.mp hlook
  have hlooknone : (alookup acc.1 k).isNone = false := by
    rw [htk]
    rfl
  simp only [bsrStep, resolvedParent]
  cases g.parent with
  | none => exact ⟨fun _ => rfl, fun u h => nomatch h⟩
  | some p =>
      simp only
      by_cases hpe : p = ""
      · rw [if_pos hpe, if_pos hpe]
        exact ⟨fun _ => rfl, fun u h => nomatch h⟩
      · rw [if_neg hpe, if_neg hpe, hlooknone]
        simp only [Bool.false_eq_true, if_false]
        cases hm : alookup M p with
        | none => exact ⟨fun _ => rfl, fun u h => nomatch h⟩
        | some pn =>
            simp only
            by_cases hmem : pn ∈ acc.1.map Prod.fst
            · rw [if_pos hmem]
              have hsome : (alookup acc.1 pn).isSome = true := alookup_isSome_of_mem_keys hmem
              rw [if_pos hsome]
              refine ⟨fun h => (nomatch h), ?_⟩
              intro u hu
              have hupn : pn = u := Option.some.inj hu
              subst hupn
              refine ⟨?_, ?_, ?_⟩
              · have h1 : alookup (dupdate (fun t => { t with parentId := some pn }) acc.1 k) k
                    = some { tk with parentId := some pn } :=
                  alookup_dupdate_self _ htk
                split
                · split
                  · simp [h1]
                  · rw [@map_parentId_dupdate
                        (fun t => { t with subTaskIds := t.subTaskIds ++ [k] })
                        (fun t => rfl) _ pn k]
                    simp [h1]
                · simp [h1]
              · show k ∈ (if k ∈ acc.2 then acc.2 else acc.2 ++ [k])
                split
                · assumption
                · simp
              · intro tu htu hcnt0
                have hnotmem : k ∉ tu.subTaskIds := by
                  rw [← List.count_eq_zero]
                  exact hcnt0
                have hpt : alookup (dupdate (fun t => { t with parentId := some pn })
                    acc.1 k) pn = some (if pn = k then { tu with parentId := some pn }
                      else tu) := by
                  by_cases hpnk : pn = k
                  · subst hpnk
                    rw [if_pos rfl]
                    have : tu = tk := by
                      rw [htu] at htk
                      exact Option.some.inj htk
                    subst this
                    exact alookup_dupdate_self _ htu
                  · rw [if_neg hpnk]
                    rw [alookup_dupdate_ne _ _ (fun h => hpnk h.symm), htu]
                have hptsub : (if pn = k then { tu with parentId := some pn }
                    else tu).subTaskIds = tu.subTaskIds := by
                  split <;> rfl
                rw [hpt]
                simp only
                rw [hptsub, if_neg hnotmem]
                have h2 := alookup_dupdate_self
                  (fun t => { t with subTaskIds := t.subTaskIds ++ [k] }) hpt
                rw [h2]
                simp only [Option.map_some]
                rw [hptsub]
                simp [List.count_append, hcnt0]
            · rw [if_neg hmem]
              have hnone : (alookup acc.1 pn).isSome = false := by
                rw [alookup_eq_none_of_not_mem_keys hmem]
                simp
              rw [hnone]
              constructor
              · intro h2
                simp
              · intro u h2
                exact nomatch h2

theorem bsr_fold_keys (M : List (String × Nat)) (l : List (Nat × GTask))
    (acc : List (Nat × SPTask) × List Nat) :
    (l.foldl (bsrStep M) acc).1.map Prod.fst = acc.1.map Prod.fst := by
  induction l generalizing acc with
  | nil => rfl
  | cons e rest ih => rw [List.foldl_cons, ih, bsrStep_keys]

theorem bsr_fold_offkey (M : List (String × Nat)) (l : List (Nat × GTask))
    (acc : List (Nat × SPTask) × List Nat) (k : Nat) (hk : k ∉ l.map Prod.fst) :
    Option.map SPTask.parentId (alookup (l.foldl (bsrStep M) acc).1 k) =
      Option.map SPTask.parentId (alookup acc.1 k) ∧
    (∀ u, Option.map (fun t => t.subTaskIds.count k) (alookup (l.foldl (bsrStep M) acc).1 u) =
      Option.map (fun t => t.subTaskIds.count k) (alookup acc.1 u)) ∧
    (k ∈ (l.foldl (bsrStep M) acc).2 ↔ k ∈ acc.2) := by
  induction l generalizing acc with
  | nil => exact ⟨rfl, fun u => rfl, Iff.rfl⟩
  | cons e rest ih =>
      simp only [List.map_cons, List.mem_cons] at hk
      push_neg at hk
      have hstep := bsrStep_offkey M acc e k (fun h => hk.1 h.symm)
      have hrest := ih (bsrStep M acc e) hk.2
      exact ⟨hrest.1.trans hstep.1, fun u => (hrest.2.1 u).trans (hstep.2.1 u),
        hrest.2.2.trans hstep.2.2⟩

theorem bsr_keys (tasks : List (Nat × SPTask)) (M : List (String × Nat))
    (O : List (Nat × GTask)) :
    (build_subtask_relationships tasks M O).1.map Prod.fst = tasks.map Prod.fst :=
  bsr_fold_keys M O (tasks, [])

/-- The per-task outcome of the second pass: a task whose original record's
parent does not resolve keeps its first-pass `parentId` and is not marked a
subtask; a task whose parent resolves to `u` ends with `parentId = u`, is
marked a subtask, and appears exactly once in `u`'s child list. -/
theorem bsr_at (M : List (String × Nat)) (T0 : List (Nat × SPTask)) (O : List (Nat × GTask))
    (hkeys : T0.map Prod.fst = O.map Prod.fst) (hnd : (O.map Prod.fst).Nodup)
    (hsub0 : ∀ u tu, alookup T0 u = some tu → tu.subTaskIds = [])
    (k : Nat) (g : GTask) (hOk : alookup O k = some g) :
    (resolvedParent M (T0.map Prod.fst) g = none →
      Option.map SPTask.parentId (alookup (build_subtask_relationships T0 M O).1 k) =
        Option.map SPTask.parentId (alookup T0 k) ∧
      k ∉ (build_subtask_relationships T0 M O).2) ∧
    (∀ u, resolvedParent M (T0.map Prod.fst) g = some u →
      Option.map SPTask.parentId (alookup (build_subtask_relationships T0 M O).1 k) =
        some (some u) ∧
      k ∈ (build_subtask_relationships T0 M O).2 ∧
      ∀ tu', alookup (build_subtask_relationships T0 M O).1 u = some tu' →
        tu'.subTaskIds.count k = 1) := by
  obtain ⟨pre, post, hsplit, hprenin⟩ := alookup_split hOk
  have hpostnin : k ∉ post.map Prod.fst := by
    rw [hsplit] at hnd
    simp only [List.map_append, List.map_cons] at hnd
    have := (List.nodup_append.mp hnd).2.1
    exact (List.nodup_cons.mp this).1
  have hbuild : build_subtask_relationships T0 M O =
      post.foldl (bsrStep M) (bsrStep M (pre.foldl (bsrStep M) (T0, [])) (k, g)) := by
    simp only [build_subtask_relationships]
    conv_lhs => rw [hsplit]
    rw [List.foldl_append, List.foldl_cons]
  have hAoff := bsr_fold_offkey M pre (T0, []) k hprenin
  have hAkeys : (pre.foldl (bsrStep M) (T0, [])).1.map Prod.fst = T0.map Prod.fst :=
    bsr_fold_keys M pre (T0, [])
  have hkT0 : k ∈ T0.map Prod.fst := by
    rw [hkeys]
    exact mem_keys_of_alookup_eq_some hOk
  have hT0some : (alookup T0 k).isSome := alookup_isSome_of_mem_keys hkT0
  have hAlook : (alookup (pre.foldl (bsrStep M) (T0, [])).1 k).isSome := by
    have h1 : Option.map SPTask.parentId (alookup (pre.foldl (bsrStep M) (T0, [])).1 k) =
        Option.map SPTask.parentId (alookup T0 k) := hAoff.1
    obtain ⟨tv, htv⟩ := Option.isSome_iff_exists.mp hT0some
    cases hAv : alookup (pre.foldl (bsrStep M) (T0, [])).1 k with
    | some t => rfl
    | none =>
        rw [hAv, htv] at h1
        simp at h1
  have honkey := bsrStep_onkey M (pre.foldl (bsrStep M) (T0, [])) k g hAlook
  rw [hAkeys] at honkey
  have hSoff := bsr_fold_offkey M post (bsrStep M (pre.foldl (bsrStep M) (T0, [])) (k, g)) k
    hpostnin
  constructor
  · intro hres
    have hstep : bsrStep M (pre.foldl (bsrStep M) (T0, [])) (k, g) =
        pre.foldl (bsrStep M) (T0, []) := honkey.1 hres
    rw [hbuild]
    constructor
    · rw [hSoff.1, hstep, hAoff.1]
    · intro hmem
      rw [hSoff.2.2, hstep, hAoff.2.2] at hmem
      cases hmem
  · intro u hres
    obtain ⟨hpar, hsubs, hcount⟩ := honkey.2 u hres
    have huT0 : u ∈ T0.map Prod.fst := by
      cases hp : g.parent with
      | none => simp [resolvedParent, hp] at hres
      | some p =>
          by_cases hpe : p = ""
          · simp [resolvedParent, hp, hpe] at hres
          · cases hm : alookup M p with
            | none => simp [resolvedParent, hp, hpe, hm] at hres
            | some pn =>
                by_cases hmem : pn ∈ T0.map Prod.fst
                · simp [resolvedParent, hp, hpe, hm, hmem] at hres
                  subst hres
                  exact hmem
                · simp [resolvedParent, hp, hpe, hm, hmem] at hres
    have hT0u : ∃ tu0, alookup T0 u = some tu0 ∧ tu0.subTaskIds.count k = 0 := by
      obtain ⟨tu0, htu0⟩ := Option.isSome_iff_exists.mp (alookup_isSome_of_mem_keys huT0)
      exact ⟨tu0, htu0, by rw [hsub0 u tu0 htu0]; rfl⟩
    obtain ⟨tu0, htu0, hcnt0⟩ := hT0u
    have hAu : ∃ tuA, alookup (pre.foldl (bsrStep M) (T0, [])).1 u = some tuA ∧
        tuA.subTaskIds.count k = 0 := by
      have h1 := hAoff.2.1 u
      cases hAv : alookup (pre.foldl (bsrStep M) (T0, [])).1 u with
      | none =>
          rw [hAv, htu0] at h1
          simp at h1
      | some tuA =>
          rw [hAv, htu0] at h1
          refine ⟨tuA, rfl, ?_⟩
          have h3 : tuA.subTaskIds.count k = tu0.subTaskIds.count k := Option.some.inj h1
          rw [h3, hcnt0]
    obtain ⟨tuA, htuA, hcntA⟩ := hAu
    have hScount := hcount tuA htuA hcntA
    rw [hbuild]
    refine ⟨?_, ?_, ?_⟩
    · rw [hSoff.1, hpar]
    · rw [hSoff.2.2]
      exact hsubs
    · intro tu' htu'
      have h2 := hSoff.2.1 u
      rw [htu', hScount] at h2
      exact Option.some.inj h2

/-- Provenance of a `subTaskIds` element across one second-pass step: it was
already present, or it is the processed key and its parent resolved to the
list's owner. -/
theorem bsrStep_subs_src (M : List (String × Nat)) (acc : List (Nat × SPTask) × List Nat)
    (e : Nat × GTask) (a b : Nat) (ta : SPTask)
    (h : alookup (bsrStep M acc e).1 a = some ta) (hb : b ∈ ta.subTaskIds) :
    (∃ ta0, alookup acc.1 a = some ta0 ∧ b ∈ ta0.subTaskIds) ∨
      (b = e.1 ∧ resolvedParent M (acc.1.map Prod.fst) e.2 = some a) := by
  simp only [bsrStep] at h
  cases hp : e.2.parent with
  | none =>
      rw [hp] at h
      exact Or.inl ⟨ta, h, hb⟩
  | some p =>
      simp only [hp] at h
      by_cases hpe : p = ""
      · rw [if_pos hpe] at h
        exact Or.inl ⟨ta, h, hb⟩
      · rw [if_neg hpe] at h
        by_cases hnn : (alookup acc.1 e.1).isNone = true
        · rw [if_pos hnn] at h
          exact Or.inl ⟨ta, h, hb⟩
        · rw [if_neg hnn] at h
          cases hm : alookup M p with
          | none =>
              simp only [hm] at h
              exact Or.inl ⟨ta, h, hb⟩
          | some pn =>
              simp only [hm] at h
              by_cases hsome : (alookup acc.1 pn).isSome = true
              · rw [if_pos hsome] at h
                obtain ⟨v0, hv0⟩ := Option.isSome_iff_exists.mp hsome
                have hpnmem : pn ∈ acc.1.map Prod.fst := mem_keys_of_alookup_eq_some hv0
                have hsrc1 : ∀ x tx,
                    alookup (dupdate (fun t => { t with parentId := some pn }) acc.1 e.1) x =
                      some tx → b ∈ tx.subTaskIds →
                    ∃ ta0, alookup acc.1 x = some ta0 ∧ b ∈ ta0.subTaskIds := by
                  intro x tx hx hbx
                  have hmp := @map_subs_dupdate
                    (fun t => { t with parentId := some pn }) (fun t => rfl) acc.1 e.1 x
                  rw [hx] at hmp
                  cases hax : alookup acc.1 x with
                  | none =>
                      rw [hax] at hmp
                      cases hmp
                  | some tx0 =>
                      rw [hax] at hmp
                      refine ⟨tx0, rfl, ?_⟩
                      have hsub : tx.subTaskIds = tx0.subTaskIds := Option.some.inj hmp
                      rw [← hsub]
                      exact hbx
                cases hpt : alookup
                    (dupdate (fun t => { t with parentId := some pn }) acc.1 e.1) pn with
                | none =>
                    simp only [hpt] at h
                    exact Or.inl (hsrc1 a ta h hb)
                | some pt =>
                    simp only [hpt] at h
                    by_cases hin : e.1 ∈ pt.subTaskIds
                    · rw [if_pos hin] at h
                      exact Or.inl (hsrc1 a ta h hb)
                    · rw [if_neg hin] at h
                      by_cases hapn : a = pn
                      · subst hapn
                        have h2 := alookup_dupdate_self
                          (fun t => { t with subTaskIds := t.subTaskIds ++ [e.1] }) hpt
                        rw [h2] at h
                        have hta : ta = { pt with subTaskIds := pt.subTaskIds ++ [e.1] } :=
                          (Option.some.inj h).symm
                        rw [hta] at hb
                        simp only [List.mem_append, List.mem_singleton] at hb
                        rcases hb with hb | hb
                        · exact Or.inl (hsrc1 a pt hpt hb)
                        · refine Or.inr ⟨hb, ?_⟩
                          exact resolvedParent_eq_some_intro hp hpe hm hpnmem
                      · rw [alookup_dupdate_ne _ _ (fun hc => hapn hc.symm)] at h
                        exact Or.inl (hsrc1 a ta h hb)
              · rw [if_neg hsome] at h
                exact Or.inl ⟨ta, h, hb⟩

/-- Provenance of a `subTaskIds` element across the whole second-pass fold:
it was in the accumulator already, or some processed original record's
parent resolved to the list's owner and contributed its key. -/
theorem bsr_fold_subs_src (M : List (String × Nat)) (l : List (Nat × GTask))
    (acc : List (Nat × SPTask) × List Nat) :
    ∀ a ta b, alookup (l.foldl (bsrStep M) acc).1 a = some ta → b ∈ ta.subTaskIds →
    (∃ ta0, alookup acc.1 a = some ta0 ∧ b ∈ ta0.subTaskIds) ∨
      ∃ g, (b, g) ∈ l ∧ resolvedParent M (acc.1.map Prod.fst) g = some a := by
  induction l generalizing acc with
  | nil =>
      intro a ta b h hb
      exact Or.inl ⟨ta, h, hb⟩
  | cons e rest ih =>
      intro a ta b h hb
      rw [List.foldl_cons] at h
      rcases ih (bsrStep M acc e) a ta b h hb with ⟨ta1, h1, hb1⟩ | ⟨g, hgmem, hres⟩
      · rcases bsrStep_subs_src M acc e a b ta1 h1 hb1 with ⟨ta0, h0, hb0⟩ | ⟨hbe, hres⟩
        · exact Or.inl ⟨ta0, h0, hb0⟩
        · have hpair : (b, e.2) = e := by
            rw [hbe]
          exact Or.inr ⟨e.2, hpair ▸ List.mem_cons_self e rest, hres⟩
      · rw [bsrStep_keys] at hres
        exact Or.inr ⟨g, List.mem_cons_of_mem e hgmem, hres⟩

-- ===========================================================================
-- Output assembly lemmas
-- ===========================================================================

/-- The set of subtask identifiers computed by the whole run (the value the
second pass returns inside `convert_google_tasks_to_sp`). -/
def runSubs (pm : String → Option Int) (pd : String → Option String) (now : Int)
    (doc : GDoc) : List Nat :=
  (build_subtask_relationships (firstPass pm pd now doc).cs.allTasks
    (firstPass pm pd now doc).cs.idMap (firstPass pm pd now doc).cs.t2o).2

/-- The task table after both passes (the `tasks` component of the output). -/
def runTasks (pm : String → Option Int) (pd : String → Option String) (now : Int)
    (doc : GDoc) : List (Nat × SPTask) :=
  (build_subtask_relationships (firstPass pm pd now doc).cs.allTasks
    (firstPass pm pd now doc).cs.idMap (firstPass pm pd now doc).cs.t2o).1

theorem out_tasks_eq (pm : String → Option Int) (pd : String → Option String) (now : Int)
    (doc : GDoc) :
    (convert_google_tasks_to_sp pm pd now doc).tasks = runTasks pm pd now doc ∧
    (convert_google_tasks_to_sp pm pd now doc).taskIds =
      (runTasks pm pd now doc).map Prod.fst ∧
    (convert_google_tasks_to_sp pm pd now doc).projectIds =
      (firstPass pm pd now doc).projects.map Prod.fst :=
  ⟨rfl, rfl, rfl⟩

theorem alookup_map_value {κ α β : Type} [DecidableEq κ] (F : α → β) (l : List (κ × α))
    (k : κ) :
    alookup (l.map (fun e => (e.1, F e.2))) k = (alookup l k).map F := by
  induction l with
  | nil => rfl
  | cons e t ih =>
      by_cases he : e.1 = k <;> simp [alookup, he, ih]

/-- The per-project rewrite of the final loop of the conversion: replace the
stored `taskIds` by the given list with subtask identifiers removed. -/
def filterTaskIds (subs : List Nat) (tids : List Nat) (pr : Project) : Project :=
  { pr with taskIds := tids.filter (fun tid => decide (tid ∉ subs)) }

theorem fold_dupdate_filter (subs : List Nat) (l pre : List (Nat × Project))
    (hdisj : ∀ k ∈ l.map Prod.fst, k ∉ pre.map Prod.fst) (hnd : (l.map Prod.fst).Nodup) :
    (l.map (fun e => (e.1, e.2.taskIds))).foldl
      (fun ps e => dupdate (filterTaskIds subs e.2) ps e.1) (pre ++ l) =
    pre ++ l.map (fun e => (e.1, filterTaskIds subs e.2.taskIds e.2)) := by
  induction l generalizing pre with
  | nil => simp
  | cons e rest ih =>
      simp only [List.map_cons, List.foldl_cons]
      have he1 : e.1 ∉ pre.map Prod.fst := hdisj e.1 (by simp)
      have hstep : dupdate (filterTaskIds subs e.2.taskIds) (pre ++ e :: rest) e.1 =
          pre ++ (e.1, filterTaskIds subs e.2.taskIds e.2) :: rest := by
        rw [dupdate_append_left _ _ _ _ he1]
        congr 1
        simp [dupdate]
      rw [hstep]
      have hpre' : ∀ k ∈ rest.map Prod.fst,
          k ∉ (pre ++ [(e.1, filterTaskIds subs e.2.taskIds e.2)]).map Prod.fst := by
        intro k hk
        simp only [List.map_append, List.map_cons, List.map_nil, List.mem_append,
          List.mem_singleton]
        push_neg
        constructor
        · exact hdisj k (by simp [hk])
        · intro hke
          simp only [List.map_cons] at hnd
          exact absurd (hke ▸ hk) (List.nodup_cons.mp hnd).1
      have hnd' : (rest.map Prod.fst).Nodup := by
        simp only [List.map_cons] at hnd
        exact (List.nodup_cons.mp hnd).2
      have hih := ih (pre ++ [(e.1, filterTaskIds subs e.2.taskIds e.2)]) hpre' hnd'
      rw [List.append_assoc] at hih
      simp only [List.singleton_append] at hih
      rw [hih, List.append_assoc, List.singleton_append]

theorem out_projects_eq (pm : String → Option Int) (pd : String → Option String) (now : Int)
    (doc : GDoc) :
    (convert_google_tasks_to_sp pm pd now doc).projects =
      (firstPass pm pd now doc).projects.map
        (fun e => (e.1, filterTaskIds (runSubs pm pd now doc) e.2.taskIds e.2)) := by
  have hd := firstPass_dinv pm pd now doc
  have h := fold_dupdate_filter (runSubs pm pd now doc) (firstPass pm pd now doc).projects []
    (by intro k hk; simp) hd.projKeysNodup
  simp only [List.nil_append] at h
  show ((firstPass pm pd now doc).ptids).foldl _ (firstPass pm pd now doc).projects = _
  rw [hd.ptidsEq]
  exact h

theorem stepTask_dropped (pm : String → Option Int) (pd : String → Option String) (now : Int)
    (pid : Nat) (acc : CState × List Nat) (g : GTask)
    (hdrop : (g.deleted || g.hidden) = true) :
    (stepTask pm pd now pid acc g).1.allTasks = acc.1.allTasks ∧
    (stepTask pm pd now pid acc g).1.t2o = acc.1.t2o := by
  have hc := (conv_eq_none_iff pm pd now g pid acc.1.ctr
    (if g.id.getD "" ≠ "" ∧ alookup acc.1.idMap (g.id.getD "") = none
     then acc.1.idMap ++ [(g.id.getD "", acc.1.ctr)] else acc.1.idMap)).mpr hdrop
  simp [stepTask, hc]

theorem foldTasks_all_dropped (pm : String → Option Int) (pd : String → Option String)
    (now : Int) (pid : Nat) (items : List GTask) (acc : CState × List Nat)
    (hall : ∀ g ∈ items, (g.deleted || g.hidden) = true) :
    (items.foldl (stepTask pm pd now pid) acc).1.allTasks = acc.1.allTasks ∧
    (items.foldl (stepTask pm pd now pid) acc).1.t2o = acc.1.t2o := by
  induction items generalizing acc with
  | nil => exact ⟨rfl, rfl⟩
  | cons g rest ih =>
      have hstep := stepTask_dropped pm pd now pid acc g (hall g (List.mem_cons_self _ _))
      have hrest := ih (stepTask pm pd now pid acc g)
        (fun g' hg' => hall g' (List.mem_cons_of_mem _ hg'))
      exact ⟨hrest.1.trans hstep.1, hrest.2.trans hstep.2⟩

theorem foldDoc_all_dropped (pm : String → Option Int) (pd : String → Option String)
    (now : Int) (groups : List GTaskList) (d0 : DState)
    (hall : ∀ tl ∈ groups, ∀ g ∈ tl.items.getD [], (g.deleted || g.hidden) = true) :
    (groups.foldl (stepList pm pd now) d0).cs.allTasks = d0.cs.allTasks ∧
    (groups.foldl (stepList pm pd now) d0).cs.t2o = d0.cs.t2o := by
  induction groups generalizing d0 with
  | nil => exact ⟨rfl, rfl⟩
  | cons tl rest ih =>
      have hstep := foldTasks_all_dropped pm pd now d0.cs.ctr (tl.items.getD [])
        ({ d0.cs with ctr := d0.cs.ctr + 1 }, []) (hall tl (List.mem_cons_self _ _))
      have hrest := ih (stepList pm pd now d0 tl)
        (fun tl' h' => hall tl' (List.mem_cons_of_mem _ h'))
      exact ⟨hrest.1.trans hstep.1, hrest.2.trans hstep.2⟩

/-- The project record of any group of the document, with its arrival-order
identifier list. -/
theorem firstPass_project_exists (pm : String → Option Int) (pd : String → Option String)
    (now : Int) (doc : GDoc) (gi : Nat) (gl : GTaskList)
    (hgl : (doc.items.getD []).get? gi = some gl) :
    ∃ pr : Project,
      alookup (firstPass pm pd now doc).projects (projectIdAt doc gi) = some pr ∧
      pr.id = projectIdAt doc gi ∧
      pr.taskIds = (convert_task_list pm pd now gl
        (((doc.items.getD []).take gi).foldl (stepList pm pd now) initDState).cs).2.2 := by
  rw [firstPass_eq_decomp pm pd now doc gi gl hgl]
  have hPd : DInv (((doc.items.getD []).take gi).foldl (stepList pm pd now) initDState) :=
    foldDoc_dinv pm pd now _ _ dinv_init
  have hPctr := prefix_ctr pm pd now doc gi
  have hid : (convert_task_list pm pd now gl (((doc.items.getD []).take gi).foldl
      (stepList pm pd now) initDState).cs).2.1.id = projectIdAt doc gi := by
    rw [(ctl_project pm pd now gl _).1, hPctr]
    rfl
  have hQd : DInv (stepList pm pd now (((doc.items.getD []).take gi).foldl
      (stepList pm pd now) initDState) gl) :=
    stepList_dinv pm pd now _ gl hPd
  have hpidlt : projectIdAt doc gi < (stepList pm pd now (((doc.items.getD []).take gi).foldl
      (stepList pm pd now) initDState) gl).cs.ctr := by
    rw [stepList_ctr, hPctr]
    simp only [projectIdAt, listSlots]
    omega
  have htailP := foldDoc_lookup_lt pm pd now ((doc.items.getD []).drop (gi + 1)) _ hQd hpidlt
  have hQproj := stepList_eq pm pd now (((doc.items.getD []).take gi).foldl
    (stepList pm pd now) initDState) gl hPd
  have hPnone : alookup (((doc.items.getD []).take gi).foldl (stepList pm pd now)
      initDState).projects (projectIdAt doc gi) = none := by
    refine alookup_eq_none_of_not_mem_keys ?_
    intro hmem
    have := hPd.projKeysLt _ hmem
    rw [hPctr] at this
    exact absurd this (lt_irrefl _)
  refine ⟨(convert_task_list pm pd now gl (((doc.items.getD []).take gi).foldl
    (stepList pm pd now) initDState).cs).2.1, ?_, hid, (ctl_project pm pd now gl _).2⟩
  rw [htailP.2.2.1, hQproj]
  simp only
  rw [alookup_append_of_eq_none _ hPnone]
  simp [alookup, hid]

/-- A task record as the validator reads it (`.get('projectId')`,
`.get('parentId')`, `.get('subTaskIds', [])`). -/
structure VTask where
  projectId : Option Nat := none
  parentId : Option Nat := none
  subTaskIds : List Nat := []
deriving Repr, DecidableEq

/-- A project record as the validator reads it (`.get('taskIds', [])`). -/
structure VProj where
  taskIds : List Nat := []
deriving Repr, DecidableEq

/-- The `task` sub-document (`sp_data['task']['ids']` / `['entities']`). -/
structure VTaskState where
  ids : List Nat := []
  entities : List (Nat × VTask) := []
deriving Repr, DecidableEq

/-- The `data` payload of a backup as the validator accesses it:
`sp_data['task']` and `sp_data['project']['entities']` are plain
subscript accesses, so an absent sub-document raises `KeyError`
(modelled as `none` here and as `Except.error` in `validate_sp_data`). -/
structure VData where
  task : Option VTaskState := none
  projectEntities : Option (List (Nat × VProj)) := none
deriving Repr, DecidableEq

/-- An arbitrary backup document handed to `validate_sp_data`: the payload
under `data` (if that key is present) and the presence of the three other
wrapper keys. -/
structure VBackup where
  data : Option VData := none
  hasCrossModelVersion : Bool := true
  hasTimestamp : Bool := true
  hasLastUpdate : Bool := true
deriving Repr, DecidableEq

def msgMissingData : String := "Missing data field in backup"
def msgMissingCMV : String := "Missing crossModelVersion field in backup"
def msgMissingTS : String := "Missing timestamp field in backup"
def msgMissingLU : String := "Missing lastUpdate field in backup"
def msgDupIds : String := "Duplicate task IDs found"
def msgIdNotEntity (tid : Nat) : String :=
  "Task ID " ++ toString tid ++ " in ids list but not in entities"
def msgBadProject (tid pid : Nat) : String :=
  "Task " ++ toString tid ++ " references non-existent project " ++ toString pid
def msgBadParent (tid pid : Nat) : String :=
  "Task " ++ toString tid ++ " references non-existent parent " ++ toString pid
def msgOwnParent (tid : Nat) : String :=
  "Task " ++ toString tid ++ " is its own parent (circular reference)"
def msgCircular (tid : Nat) : String :=
  "Circular parent reference detected involving task " ++ toString tid
def msgBadSubtask (tid sid : Nat) : String :=
  "Task " ++ toString tid ++ " lists non-existent subtask " ++ toString sid
def msgSubtaskParentMismatch (sid tid : Nat) : String :=
  "Subtask " ++ toString sid ++ " does not reference parent " ++ toString tid
def msgProjBadTask (pid tid : Nat) : String :=
  "Project " ++ toString pid ++ " lists non-existent task " ++ toString tid
def msgProjListsSubtask (pid tid : Nat) : String :=
  "Project " ++ toString pid ++ " lists subtask " ++ toString tid ++
    " (should only list top-level tasks)"

/-- The ancestor-chain walk of check 5 (the inner `while current:` loop),
with explicit fuel.  A continuing iteration always adds to `visited` a key
of `entities` that was not yet visited (a `current` outside the entity
table makes the next `current` `None`, ending the loop), so the Python loop
runs at most `entities.length + 1` times; fuel `entities.length + 2` is
never exhausted. -/
def cycleWalk (fuel : Nat) (entities : List (Nat × VTask)) (task_id : Nat)
    (visited : List Nat) (current : Nat) : List String :=
  match fuel with
  | 0 => []
  | f + 1 =>
    if current ∈ visited then [msgCircular task_id]
    else
      match (alookup entities current).bind VTask.parentId with
      | none => []
      | some nxt => cycleWalk f entities task_id (current :: visited) nxt

/-- Check 1 (wrapper fields other than `data`, in source order). -/
def wrapperErrors (b : VBackup) : List String :=
  (if b.hasCrossModelVersion then [] else [msgMissingCMV]) ++
  (if b.hasTimestamp then [] else [msgMissingTS]) ++
  (if b.hasLastUpdate then [] else [msgMissingLU])

/-- Check 2: duplicate task identifiers
(`len(task_ids) != len(set(task_ids))`). -/
def dupIdErrors (ids : List Nat) : List String :=
  if ids.Nodup then [] else [msgDupIds]

/-- Check 3: every listed task identifier has an entity. -/
def idEntityErrors (ids : List Nat) (entities : List (Nat × VTask)) : List String :=
  ids.flatMap (fun tid =>
    if (alookup entities tid).isSome then [] else [msgIdNotEntity tid])

/-- Check 4: every task's project reference resolves. -/
def projectRefErrors (entities : List (Nat × VTask))
    (projects : List (Nat × VProj)) : List String :=
  entities.flatMap (fun e =>
    match e.2.projectId with
    | none => []
    | some pid => if (alookup projects pid).isSome then [] else [msgBadProject e.1 pid])

/-- Check 5 for one task: parent reference resolution, self-parent, and the
ancestor-chain cycle walk. -/
def parentErrorsFor (entities : List (Nat × VTask)) (e : Nat × VTask) : List String :=
  match e.2.parentId with
  | none => []
  | some pid =>
    if (alookup entities pid).isNone then [msgBadParent e.1 pid]
    else if pid = e.1 then [msgOwnParent e.1]
    else cycleWalk (entities.length + 2) entities e.1 [e.1] pid

/-- Check 5 over all tasks. -/
def parentErrors (entities : List (Nat × VTask)) : List String :=
  entities.flatMap (parentErrorsFor entities)

/-- Check 6: every `subTaskIds` entry exists and points back. -/
def subTaskErrors (entities : List (Nat × VTask)) : List String :=
  entities.flatMap (fun e =>
    e.2.subTaskIds.flatMap (fun sid =>
      match alookup entities sid with
      | none => [msgBadSubtask e.1 sid]
      | some st =>
          if st.parentId = some e.1 then [] else [msgSubtaskParentMismatch sid e.1]))

/-- Check 7: every project's `taskIds` entry exists and is top-level. -/
def projectTaskIdErrors (entities : List (Nat × VTask))
    (projects : List (Nat × VProj)) : List String :=
  projects.flatMap (fun p =>
    p.2.taskIds.flatMap (fun tid =>
      match alookup entities tid with
      | none => [msgProjBadTask p.1 tid]
      | some t =>
          match t.parentId with
          | some _ => [msgProjListsSubtask p.1 tid]
          | none => []))

/-- `validate_sp_data`.  The `errors` list is threaded exactly as in the
source: the missing-`data` check appends its message and returns at once;
afterwards each loop appends its messages in iteration order
(`acc ++ f x` folds).  A missing `task` or `project` sub-document under
`data` is an uncaught `KeyError`, modelled as `Except.error` (note that it
discards the wrapper errors already collected, as a Python exception
does). -/
def validate_sp_data (b : VBackup) : Except String (List String) :=
  match b.data with
  | none => Except.ok [msgMissingData]
  | some d =>
    let errors : List String := wrapperErrors b
    match d.task with
    | none => Except.error "KeyError: task"
    | some ts =>
      let errors := errors ++ dupIdErrors ts.ids
      match d.projectEntities with
      | none => Except.error "KeyError: project"
      | some ps =>
        let errors := errors ++
          ts.ids.foldl (fun acc tid =>
            acc ++ (if (alookup ts.entities tid).isSome then [] else [msgIdNotEntity tid])) []
        let errors := errors ++
          ts.entities.foldl (fun acc e =>
            acc ++ (match e.2.projectId with
              | none => []
              | some pid =>
                  if (alookup ps pid).isSome then [] else [msgBadProject e.1 pid])) []
        let errors := errors ++
          ts.entities.foldl (fun acc e => acc ++ parentErrorsFor ts.entities e) []
        let errors := errors ++
          ts.entities.foldl (fun acc e =>
            acc ++ e.2.subTaskIds.foldl (fun acc2 sid =>
              acc2 ++ (match alookup ts.entities sid with
                | none => [msgBadSubtask e.1 sid]
                | some st =>
                    if st.parentId = some e.1 then []
                    else [msgSubtaskParentMismatch sid e.1])) []) []
        let errors := errors ++
          ps.foldl (fun acc p =>
            acc ++ p.2.taskIds.foldl (fun acc2 tid =>
              acc2 ++ (match alookup ts.entities tid with
                | none => [msgProjBadTask p.1 tid]
                | some t =>
                    match t.parentId with
                    | some _ => [msgProjListsSubtask p.1 tid]
                    | none => [])) []) []
        Except.ok errors

-- ===========================================================================
-- Validator lemmas
-- ===========================================================================

/-- An error-accumulating fold is the flat map of the per-element messages. -/
theorem foldl_append_eq_flatMap {α : Type} (f : α → List String) (l : List α)
    (acc : List String) :
    l.foldl (fun a x => a ++ f x) acc = acc ++ l.flatMap f := by
  induction l generalizing acc with
  | nil => simp
  | cons x t ih => simp [ih, List.append_assoc]

/-- On a backup whose `data`, `task` and `project` parts are all present,
`validate_sp_data` returns exactly the concatenation, in source order, of
the messages of checks 1–7. -/
theorem validate_sp_data_ok_eq (b : VBackup) (d : VData) (ts : VTaskState)
    (ps : List (Nat × VProj)) (hd : b.data = some d) (ht : d.task = some ts)
    (hp : d.projectEntities = some ps) :
    validate_sp_data b = Except.ok
      (wrapperErrors b ++ dupIdErrors ts.ids ++ idEntityErrors ts.ids ts.entities ++
        projectRefErrors ts.entities ps ++ parentErrors ts.entities ++
        subTaskErrors ts.entities ++ projectTaskIdErrors ts.entities ps) := by
  simp only [validate_sp_data, hd, ht, hp, idEntityErrors, projectRefErrors, parentErrors,
    subTaskErrors, projectTaskIdErrors, foldl_append_eq_flatMap, List.nil_append,
    List.append_assoc]

-- ===========================================================================
-- Claim C5 (validator totality / completeness)
-- ===========================================================================

/-- C5 counterexample: `validate_sp_data` does not return the complete list
of violations for every backup document.  A backup whose `data` payload
lacks the `task` sub-document makes the validator raise `KeyError`
(`sp_data['task']`), so it does not terminate normally; and a backup
missing both `data` and `timestamp` returns only the missing-`data`
message, short-circuiting the missing-`timestamp` violation of check 1. -/
theorem c5_counterexample :
    validate_sp_data { data := some {} } = Except.error "KeyError: task" ∧
    validate_sp_data { data := none, hasTimestamp := false } = Except.ok [msgMissingData] ∧
    msgMissingTS ≠ msgMissingData := by
  refine ⟨rfl, rfl, ?_⟩
  decide

/-- C5 (amended): when the `data` field is absent the validator reports
only that and returns immediately; when `data` is present and carries the
`task` and `project` sub-documents, `validate_sp_data` terminates normally
and returns the complete ordered concatenation of the violations of checks
1 through 7, no violation short-circuiting the others. -/
theorem c5_validator_complete (b : VBackup) :
    (b.data = none → validate_sp_data b = Except.ok [msgMissingData]) ∧
    (∀ (d : VData) (ts : VTaskState) (ps : List (Nat × VProj)),
      b.data = some d → d.task = some ts → d.projectEntities = some ps →
      validate_sp_data b = Except.ok
        (wrapperErrors b ++ dupIdErrors ts.ids ++ idEntityErrors ts.ids ts.entities ++
          projectRefErrors ts.entities ps ++ parentErrors ts.entities ++
          subTaskErrors ts.entities ++ projectTaskIdErrors ts.entities ps)) := by
  constructor
  · intro h
    simp [validate_sp_data, h]
  · intro d ts ps hd ht hp
    exact validate_sp_data_ok_eq b d ts ps hd ht hp

def vtW : VTask := { projectId := some 7 }

def tsW : VTaskState := { ids := [1], entities := [(1, vtW)] }

def dW : VData := { task := some tsW, projectEntities := some [] }

def bW : VBackup := { data := some dW }

/-- C5 witness: both branches of the amended claim at concrete backups. -/
theorem c5_witness :
    validate_sp_data { data := none } = Except.ok [msgMissingData] ∧
    validate_sp_data bW = Except.ok
      (wrapperErrors bW ++ dupIdErrors tsW.ids ++ idEntityErrors tsW.ids tsW.entities ++
        projectRefErrors tsW.entities [] ++ parentErrors tsW.entities ++
        subTaskErrors tsW.entities ++ projectTaskIdErrors tsW.entities []) :=
  ⟨(c5_validator_complete { data := none }).1 rfl,
   (c5_validator_complete bW).2 dW tsW [] rfl rfl rfl⟩

-- ===========================================================================
-- Claim C6 (validator detects the three corruptions)
-- ===========================================================================

/-- C6: on a backup document carrying `data` with its `task` and `project`
sub-documents, `validate_sp_data` reports at least one error for each of:
a task whose `projectId` does not resolve to an existing project entity;
two distinct tasks naming each other as parent (a 2-cycle); and a project
whose `taskIds` contains a task that itself has a `parentId`. -/
theorem c6_validator_detects_corruptions (b : VBackup) (d : VData) (ts : VTaskState)
    (ps : List (Nat × VProj)) (hd : b.data = some d) (ht : d.task = some ts)
    (hp : d.projectEntities = some ps) :
    (∀ tid t pid, (tid, t) ∈ ts.entities → t.projectId = some pid →
      alookup ps pid = none →
      ∃ es, validate_sp_data b = Except.ok es ∧ msgBadProject tid pid ∈ es) ∧
    (∀ a ta c tc, (a, ta) ∈ ts.entities → ta.parentId = some c →
      alookup ts.entities c = some tc → tc.parentId = some a → a ≠ c →
      ∃ es, validate_sp_data b = Except.ok es ∧ msgCircular a ∈ es) ∧
    (∀ pid pr tid t, (pid, pr) ∈ ps → tid ∈ pr.taskIds →
      alookup ts.entities tid = some t → (t.parentId).isSome →
      ∃ es, validate_sp_data b = Except.ok es ∧ msgProjListsSubtask pid tid ∈ es) := by
  have heq := validate_sp_data_ok_eq b d ts ps hd ht hp
  refine ⟨?_, ?_, ?_⟩
  · intro tid t pid hmem hproj hlook
    refine ⟨_, heq, ?_⟩
    have h4 : msgBadProject tid pid ∈ projectRefErrors ts.entities ps := by
      refine List.mem_flatMap.mpr ⟨(tid, t), hmem, ?_⟩
      simp [hproj, hlook]
    simp [List.mem_append, h4]
  · intro a ta c tc hmem hpar hlook hback hne
    refine ⟨_, heq, ?_⟩
    have h5 : msgCircular a ∈ parentErrors ts.entities := by
      refine List.mem_flatMap.mpr ⟨(a, ta), hmem, ?_⟩
      have hne' : ¬(c = a) := fun hc => hne hc.symm
      simp [parentErrorsFor, hpar, hlook, hne', cycleWalk, hback]
    simp [List.mem_append, h5]
  · intro pid pr tid t hmem htid hlook hparent
    refine ⟨_, heq, ?_⟩
    obtain ⟨x, hx⟩ := Option.isSome_iff_exists.mp hparent
    have h7 : msgProjListsSubtask pid tid ∈ projectTaskIdErrors ts.entities ps := by
      refine List.mem_flatMap.mpr ⟨(pid, pr), hmem, ?_⟩
      refine List.mem_flatMap.mpr ⟨tid, htid, ?_⟩
      simp [hlook, hx]
    simp [List.mem_append, h7]

def vt1 : VTask := { projectId := some 99, parentId := some 2 }

def vt2 : VTask := { parentId := some 1 }

def tsC : VTaskState := { ids := [1, 2], entities := [(1, vt1), (2, vt2)] }

def prC : VProj := { taskIds := [1] }

def dC : VData := { task := some tsC, projectEntities := some [(10, prC)] }

def bC : VBackup := { data := some dC }

/-- C6 witness: a concrete backup containing all three corruptions at once
(task 1 references project 99 which does not exist; tasks 1 and 2 name
each other as parent; project 10 lists task 1 which has a parent). -/
theorem c6_witness :
    (∃ es, validate_sp_data bC = Except.ok es ∧ msgBadProject 1 99 ∈ es) ∧
    (∃ es, validate_sp_data bC = Except.ok es ∧ msgCircular 1 ∈ es) ∧
    (∃ es, validate_sp_data bC = Except.ok es ∧ msgProjListsSubtask 10 1 ∈ es) := by
  obtain ⟨h1, h2, h3⟩ := c6_validator_detects_corruptions bC dC tsC [(10, prC)] rfl rfl rfl
  exact ⟨h1 1 vt1 99 (by decide) rfl rfl,
         h2 1 vt1 2 vt2 (by decide) rfl rfl rfl (by decide),
         h3 10 prC 1 vt1 (by decide) (by decide) rfl rfl⟩

-- ===========================================================================
-- Claim C7 (created / updated instants)
-- ===========================================================================

/-- The Python parser's value at the Unix epoch:
`datetime.fromisoformat("1970-01-01T00:00:00+00:00").timestamp()` is `0.0`,
so `parse_iso_to_unix_ms` returns `0` there. -/
def pmZero : String → Option Int :=
  fun s => if s = "1970-01-01T00:00:00Z" then some 0 else none

def pdNone : String → Option String := fun _ => none

def gEpoch : GTask := { updated := some "1970-01-01T00:00:00Z" }

/-- C7 counterexample: a task whose `updated` field parses successfully to
the instant `0` does not get `created = updated = 0`; the Python
`updated_ts or current_ts` treats the parsed `0` as falsy and substitutes
the current instant (`555` here). -/
theorem c7_counterexample :
    parse_iso_to_unix_ms pmZero gEpoch.updated = some 0 ∧
    (convert_task_with_assigned_id pmZero pdNone 555 gEpoch 0 1 []).map SPTask.created
      = some 555 ∧
    (convert_task_with_assigned_id pmZero pdNone 555 gEpoch 0 1 []).map SPTask.updated
      = some 555 ∧
    (555 : Int) ≠ 0 := by
  refine ⟨rfl, rfl, rfl, ?_⟩
  decide

/-- C7 (amended): for every eligible source task, if the last-updated field
is absent, fails to parse, or parses to the zero instant (falsy in Python),
`created` and `updated` are both the substituted current instant; otherwise
both are the parsed instant. -/
theorem c7_created_updated (pm : String → Option Int) (pd : String → Option String)
    (now : Int) (g : GTask) (pid aid : Nat) (m : List (String × Nat)) (t : SPTask)
    (h : convert_task_with_assigned_id pm pd now g pid aid m = some t) :
    ((parse_iso_to_unix_ms pm g.updated = none ∨ parse_iso_to_unix_ms pm g.updated = some 0) →
      t.created = now ∧ t.updated = now) ∧
    (∀ v, parse_iso_to_unix_ms pm g.updated = some v → v ≠ 0 →
      t.created = v ∧ t.updated = v) := by
  simp only [convert_task_with_assigned_id] at h
  by_cases hdel : (g.deleted || g.hidden) = true
  · rw [if_pos hdel] at h
    exact absurd h (by simp)
  · rw [if_neg hdel] at h
    injection h with h
    constructor
    · rintro (hu | hu) <;> rw [← h] <;> simp [pyOrInt, hu]
    · intro v hv hvne
      rw [← h]
      simp [pyOrInt, hv, hvne]

def pm42 : String → Option Int := fun _ => some 42

/-- C7 witness: both branches of the amended claim at concrete tasks. -/
theorem c7_witness :
    (∃ t, convert_task_with_assigned_id pm42 pdNone 7 { updated := some "u" } 0 1 [] = some t ∧
      t.created = 42 ∧ t.updated = 42) ∧
    (∃ t, convert_task_with_assigned_id pmZero pdNone 7 { updated := none } 0 1 [] = some t ∧
      t.created = 7 ∧ t.updated = 7) := by
  constructor
  · refine ⟨_, rfl, ?_⟩
    exact (c7_created_updated pm42 pdNone 7 { updated := some "u" } 0 1 [] _ rfl).2 42 rfl
      (by decide)
  · refine ⟨_, rfl, ?_⟩
    exact (c7_created_updated pmZero pdNone 7 { updated := none } 0 1 [] _ rfl).1 (Or.inl rfl)

-- ===========================================================================
-- Shared corollaries for the dropped-task claims
-- ===========================================================================

def pmNone : String → Option Int := fun _ => none

/-- A deleted or hidden source task contributes no task entity, no entry in
the task-identifier list, and no entry in any project's visible list. -/
theorem dropped_not_in_output (pm : String → Option Int) (pd : String → Option String)
    (now : Int) (doc : GDoc) (gi ji : Nat) (gl : GTaskList) (g : GTask)
    (hgl : (doc.items.getD []).get? gi = some gl)
    (hg : (gl.items.getD []).get? ji = some g)
    (hdrop : (g.deleted || g.hidden) = true) :
    alookup (convert_google_tasks_to_sp pm pd now doc).tasks (assignedId doc gi ji) = none ∧
    assignedId doc gi ji ∉ (convert_google_tasks_to_sp pm pd now doc).taskIds ∧
    (∀ e ∈ (convert_google_tasks_to_sp pm pd now doc).projects,
      assignedId doc gi ji ∉ e.2.taskIds) := by
  have hT0none := firstPass_at_dropped pm pd now doc gi ji gl g hgl hg hdrop
  have hkeys : (runTasks pm pd now doc).map Prod.fst =
      (firstPass pm pd now doc).cs.allTasks.map Prod.fst :=
    bsr_keys (firstPass pm pd now doc).cs.allTasks (firstPass pm pd now doc).cs.idMap
      (firstPass pm pd now doc).cs.t2o
  have hnotmemT0 : assignedId doc gi ji ∉
      (firstPass pm pd now doc).cs.allTasks.map Prod.fst := by
    intro hmem
    have hs := alookup_isSome_of_mem_keys hmem
    rw [hT0none] at hs
    cases hs
  have hnotmemR : assignedId doc gi ji ∉ (runTasks pm pd now doc).map Prod.fst := by
    rw [hkeys]
    exact hnotmemT0
  refine ⟨?_, ?_, ?_⟩
  · rw [(out_tasks_eq pm pd now doc).1]
    exact alookup_eq_none_of_not_mem_keys hnotmemR
  · rw [(out_tasks_eq pm pd now doc).2.1]
    exact hnotmemR
  · intro e he
    rw [out_projects_eq] at he
    obtain ⟨e0, he0, hee⟩ := List.mem_map.mp he
    intro hx
    rw [← hee] at hx
    simp only [filterTaskIds] at hx
    have hx2 := List.mem_of_mem_filter hx
    exact hnotmemT0 ((firstPass_dinv pm pd now doc).tidsSub e0 he0 _ hx2)

-- ===========================================================================
-- Run-level corollaries of the second pass
-- ===========================================================================

theorem alookup_of_mem_nodup {κ α : Type} [DecidableEq κ] {l : List (κ × α)} {k : κ} {v : α}
    (hnd : (l.map Prod.fst).Nodup) (h : (k, v) ∈ l) : alookup l k = some v := by
  induction l with
  | nil => cases h
  | cons e t ih =>
      rcases List.mem_cons.mp h with h1 | h1
      · rw [← h1]
        simp [alookup]
      · have hne : e.1 ≠ k := by
          intro hc
          have : k ∈ t.map Prod.fst := List.mem_map.mpr ⟨(k, v), h1, rfl⟩
          rw [← hc] at this
          exact (List.nodup_cons.mp (by simpa using hnd)).1 this
        simp only [alookup, hne, if_false]
        exact ih (List.nodup_cons.mp (by simpa using hnd)).2 h1

theorem resolvedParent_eq_some {M : List (String × Nat)} {ks : List Nat} {g : GTask} {u : Nat}
    (h : resolvedParent M ks g = some u) :
    ∃ p, g.parent = some p ∧ p ≠ "" ∧ alookup M p = some u ∧ u ∈ ks := by
  cases hp : g.parent with
  | none => simp [resolvedParent, hp] at h
  | some p =>
      by_cases hpe : p = ""
      · simp [resolvedParent, hp, hpe] at h
      · cases hm : alookup M p with
        | none => simp [resolvedParent, hp, hpe, hm] at h
        | some w =>
            by_cases hw : w ∈ ks
            · simp only [resolvedParent, hp, hpe, hm, if_neg hpe, if_pos hw] at h
              cases h
              exact ⟨p, rfl, hpe, hm, hw⟩
            · simp [resolvedParent, hp, hpe, hm, hw] at h

/-- `bsr_at` instantiated with the state of the whole run. -/
theorem run_bsr_at (pm : String → Option Int) (pd : String → Option String) (now : Int)
    (doc : GDoc) (k : Nat) (g : GTask)
    (hOk : alookup (firstPass pm pd now doc).cs.t2o k = some g) :
    (resolvedParent (firstPass pm pd now doc).cs.idMap
        ((firstPass pm pd now doc).cs.allTasks.map Prod.fst) g = none →
      Option.map SPTask.parentId (alookup (runTasks pm pd now doc) k) =
        Option.map SPTask.parentId (alookup (firstPass pm pd now doc).cs.allTasks k) ∧
      k ∉ runSubs pm pd now doc) ∧
    (∀ u, resolvedParent (firstPass pm pd now doc).cs.idMap
        ((firstPass pm pd now doc).cs.allTasks.map Prod.fst) g = some u →
      Option.map SPTask.parentId (alookup (runTasks pm pd now doc) k) = some (some u) ∧
      k ∈ runSubs pm pd now doc ∧
      ∀ tu', alookup (runTasks pm pd now doc) u = some tu' →
        tu'.subTaskIds.count k = 1) := by
  have hs := (firstPass_dinv pm pd now doc).sinv
  exact bsr_at (firstPass pm pd now doc).cs.idMap (firstPass pm pd now doc).cs.allTasks
    (firstPass pm pd now doc).cs.t2o hs.keysEq (hs.keysEq ▸ hs.keysNodup)
    (fun u tu htu => (hs.aligned u tu htu).2.1) k g hOk

/-- Characterisation of a final `parentId`: it always comes from the final
ID mapping applied to the original record's declared parent, and when its
target exists in the table, the second pass resolved it. -/
theorem runTasks_parent_char (pm : String → Option Int) (pd : String → Option String)
    (now : Int) (doc : GDoc) (b : Nat) (tb : SPTask)
    (hb : alookup (runTasks pm pd now doc) b = some tb) (a : Nat)
    (hpar : tb.parentId = some a) :
    ∃ g p, alookup (firstPass pm pd now doc).cs.t2o b = some g ∧ g.parent = some p ∧
      p ≠ "" ∧ alookup (firstPass pm pd now doc).cs.idMap p = some a ∧
      (a ∈ (firstPass pm pd now doc).cs.allTasks.map Prod.fst →
        resolvedParent (firstPass pm pd now doc).cs.idMap
          ((firstPass pm pd now doc).cs.allTasks.map Prod.fst) g = some a) := by
  have hs := (firstPass_dinv pm pd now doc).sinv
  have hbkeys : b ∈ (firstPass pm pd now doc).cs.allTasks.map Prod.fst := by
    have h1 : b ∈ ((build_subtask_relationships (firstPass pm pd now doc).cs.allTasks
        (firstPass pm pd now doc).cs.idMap (firstPass pm pd now doc).cs.t2o).1).map Prod.fst :=
      mem_keys_of_alookup_eq_some hb
    rw [bsr_keys] at h1
    exact h1
  have hbO : b ∈ (firstPass pm pd now doc).cs.t2o.map Prod.fst := by
    rw [← hs.keysEq]
    exact hbkeys
  obtain ⟨g, hg⟩ := Option.isSome_iff_exists.mp (alookup_isSome_of_mem_keys hbO)
  have hat := run_bsr_at pm pd now doc b g hg
  cases hres : resolvedParent (firstPass pm pd now doc).cs.idMap
      ((firstPass pm pd now doc).cs.allTasks.map Prod.fst) g with
  | none =>
      obtain ⟨hmap, -⟩ := hat.1 hres
      rw [hb] at hmap
      obtain ⟨t0, ht0⟩ := Option.isSome_iff_exists.mp (alookup_isSome_of_mem_keys hbkeys)
      rw [ht0] at hmap
      have ht0par : t0.parentId = some a := by
        have := Option.some.inj hmap
        rw [← this, hpar]
      obtain ⟨-, -, g', hg', hchar⟩ := hs.aligned b t0 ht0
      have hgg : g' = g := by
        rw [hg] at hg'
        exact (Option.some.inj hg').symm
      rw [hgg] at hchar
      rcases hchar with hnone | ⟨p, hp, hpe, hm⟩
      · rw [hnone] at ht0par
        cases ht0par
      · rw [ht0par] at hm
        refine ⟨g, p, hg, hp, hpe, hm, ?_⟩
        intro hmem
        have := resolvedParent_eq_some_intro hp hpe hm hmem
        rw [this] at hres
        cases hres
  | some u =>
      obtain ⟨hmap, -, -⟩ := hat.2 u hres
      rw [hb] at hmap
      have hua : u = a := by
        have h1 := Option.some.inj hmap
        rw [hpar] at h1
        exact (Option.some.inj h1).symm
      subst hua
      obtain ⟨p, hp, hpe, hm, hmem⟩ := resolvedParent_eq_some hres
      exact ⟨g, p, hg, hp, hpe, hm, fun _ => hres⟩

/-- Converse characterisation of the final child lists: every element of a
final task's `subTaskIds` is the key of a converted task whose `parentId`
points back at the list's owner. -/
theorem runTasks_subs_char (pm : String → Option Int) (pd : String → Option String)
    (now : Int) (doc : GDoc) (a : Nat) (ta : SPTask) (b : Nat)
    (ha : alookup (runTasks pm pd now doc) a = some ta) (hb : b ∈ ta.subTaskIds) :
    ∃ tb, alookup (runTasks pm pd now doc) b = some tb ∧ tb.parentId = some a := by
  have hs := (firstPass_dinv pm pd now doc).sinv
  have ha' : alookup ((firstPass pm pd now doc).cs.t2o.foldl
      (bsrStep (firstPass pm pd now doc).cs.idMap)
      ((firstPass pm pd now doc).cs.allTasks, [])).1 a = some ta := ha
  rcases bsr_fold_subs_src (firstPass pm pd now doc).cs.idMap (firstPass pm pd now doc).cs.t2o
      ((firstPass pm pd now doc).cs.allTasks, []) a ta b ha' hb with
    ⟨ta0, h0, hb0⟩ | ⟨g, hgmem, hres⟩
  · have hsub0 : ta0.subTaskIds = [] := (hs.aligned a ta0 h0).2.1
    rw [hsub0] at hb0
    cases hb0
  · have hnd : ((firstPass pm pd now doc).cs.t2o.map Prod.fst).Nodup :=
      hs.keysEq ▸ hs.keysNodup
    have hone : alookup (firstPass pm pd now doc).cs.t2o b = some g :=
      alookup_of_mem_nodup hnd hgmem
    have hat := run_bsr_at pm pd now doc b g hone
    obtain ⟨hmap, -, -⟩ := hat.2 a hres
    cases hlk : alookup (runTasks pm pd now doc) b with
    | none =>
        rw [hlk] at hmap
        cases hmap
    | some tb =>
        rw [hlk] at hmap
        exact ⟨tb, rfl, Option.some.inj hmap⟩

-- ===========================================================================
-- Claim C4 (identifier uniqueness and first-occurrence mapping)
-- ===========================================================================

/-- C4: every generated identifier (project and task) in a run is distinct
from every other one, even when original identifiers repeat; and the ID
mapping binds each truthy original identifier whose first occurrence is at
position `(gi, ji)` to the identifier generated there, never overwritten by
later tasks with the same original identifier. -/
theorem c4_unique_ids_first_occurrence_mapping (pm : String → Option Int)
    (pd : String → Option String) (now : Int) (doc : GDoc) :
    ((convert_google_tasks_to_sp pm pd now doc).projectIds ++
      (convert_google_tasks_to_sp pm pd now doc).taskIds).Nodup ∧
    (∀ gi ji gl g, (doc.items.getD []).get? gi = some gl →
      (gl.items.getD []).get? ji = some g → g.id.getD "" ≠ "" →
      (∀ gl' ∈ (doc.items.getD []).take gi, ∀ g' ∈ gl'.items.getD [],
        g'.id.getD "" ≠ g.id.getD "") →
      (∀ g' ∈ (gl.items.getD []).take ji, g'.id.getD "" ≠ g.id.getD "") →
      alookup (firstPass pm pd now doc).cs.idMap (g.id.getD "") =
        some (assignedId doc gi ji)) := by
  constructor
  · have hd := firstPass_dinv pm pd now doc
    rw [(out_tasks_eq pm pd now doc).2.1, (out_tasks_eq pm pd now doc).2.2]
    have hkeys : (runTasks pm pd now doc).map Prod.fst =
        (firstPass pm pd now doc).cs.allTasks.map Prod.fst :=
      bsr_keys (firstPass pm pd now doc).cs.allTasks (firstPass pm pd now doc).cs.idMap
        (firstPass pm pd now doc).cs.t2o
    rw [hkeys]
    rw [List.nodup_append]
    exact ⟨hd.projKeysNodup, hd.sinv.keysNodup, hd.projTaskDisj⟩
  · intro gi ji gl g hgl hg hoid hb1 hb2
    exact firstPass_idMap_first pm pd now doc gi ji gl g hgl hg hoid hb1 hb2

def gA1 : GTask := { id := some "a", title := some "A1" }

def gA2 : GTask := { id := some "a", title := some "A2" }

def gB1 : GTask := { id := some "b", title := some "B1" }

def gB2 : GTask := { id := some "b", title := some "B2" }

def docW4 : GDoc :=
  { kind := some "tasks#taskLists",
    items := some [⟨some "G1", some [gA1, gB1]⟩, ⟨some "G2", some [gA2, gB2]⟩] }

/-- C4 witness: four source tasks sharing two duplicate original
identifiers across two groups yield four distinct converted tasks, and the
mapping keeps the first occurrence's identifier. -/
theorem c4_witness :
    ((convert_google_tasks_to_sp pmNone pdNone 0 docW4).projectIds ++
      (convert_google_tasks_to_sp pmNone pdNone 0 docW4).taskIds).Nodup ∧
    (convert_google_tasks_to_sp pmNone pdNone 0 docW4).taskIds.length = 4 ∧
    alookup (firstPass pmNone pdNone 0 docW4).cs.idMap (gA1.id.getD "") =
      some (assignedId docW4 0 0) := by
  refine ⟨(c4_unique_ids_first_occurrence_mapping pmNone pdNone 0 docW4).1, by decide, ?_⟩
  exact (c4_unique_ids_first_occurrence_mapping pmNone pdNone 0 docW4).2 0 0 _ gA1 rfl rfl
    (by decide) (by decide) (by decide)

-- ===========================================================================
-- Claim C8 (deleted / hidden tasks are dropped)
-- ===========================================================================

/-- C8: a deleted or hidden source task contributes no converted task entity
and no entry in any task-identifier list; a document all of whose source
tasks are deleted or hidden produces zero task entities. -/
theorem c8_dropped_tasks (pm : String → Option Int) (pd : String → Option String)
    (now : Int) (doc : GDoc) :
    (∀ gi ji gl g, (doc.items.getD []).get? gi = some gl →
      (gl.items.getD []).get? ji = some g → (g.deleted || g.hidden) = true →
      alookup (convert_google_tasks_to_sp pm pd now doc).tasks (assignedId doc gi ji) = none ∧
      assignedId doc gi ji ∉ (convert_google_tasks_to_sp pm pd now doc).taskIds ∧
      (∀ e ∈ (convert_google_tasks_to_sp pm pd now doc).projects,
        assignedId doc gi ji ∉ e.2.taskIds)) ∧
    ((∀ gl ∈ doc.items.getD [], ∀ g ∈ gl.items.getD [], (g.deleted || g.hidden) = true) →
      (convert_google_tasks_to_sp pm pd now doc).tasks = [] ∧
      (convert_google_tasks_to_sp pm pd now doc).taskIds = []) := by
  constructor
  · intro gi ji gl g hgl hg hdrop
    exact dropped_not_in_output pm pd now doc gi ji gl g hgl hg hdrop
  · intro hall
    have h := foldDoc_all_dropped pm pd now (doc.items.getD []) initDState hall
    have h1 : (firstPass pm pd now doc).cs.allTasks = [] := h.1
    have h2 : (firstPass pm pd now doc).cs.t2o = [] := h.2
    have htasks : (convert_google_tasks_to_sp pm pd now doc).tasks = [] := by
      rw [(out_tasks_eq pm pd now doc).1]
      show (build_subtask_relationships (firstPass pm pd now doc).cs.allTasks
        (firstPass pm pd now doc).cs.idMap (firstPass pm pd now doc).cs.t2o).1 = []
      rw [h1, h2]
      rfl
    refine ⟨htasks, ?_⟩
    rw [(out_tasks_eq pm pd now doc).2.1]
    show (build_subtask_relationships (firstPass pm pd now doc).cs.allTasks
      (firstPass pm pd now doc).cs.idMap (firstPass pm pd now doc).cs.t2o).1.map Prod.fst = []
    rw [h1, h2]
    rfl

def gPdel : GTask := { id := some "p", title := some "P", deleted := true }

def gQhid : GTask := { id := some "q", title := some "Q", hidden := true }

def docAllDrop : GDoc :=
  { kind := some "tasks#taskLists", items := some [⟨some "L", some [gPdel, gQhid]⟩] }

/-- C8 witness: both branches at a concrete document whose only group holds
one deleted and one hidden task. -/
theorem c8_witness :
    (alookup (convert_google_tasks_to_sp pmNone pdNone 0 docAllDrop).tasks
      (assignedId docAllDrop 0 0) = none ∧
     assignedId docAllDrop 0 0 ∉ (convert_google_tasks_to_sp pmNone pdNone 0 docAllDrop).taskIds) ∧
    (convert_google_tasks_to_sp pmNone pdNone 0 docAllDrop).tasks = [] ∧
    (convert_google_tasks_to_sp pmNone pdNone 0 docAllDrop).taskIds = [] := by
  have h1 := (c8_dropped_tasks pmNone pdNone 0 docAllDrop).1 0 0 _ gPdel rfl rfl (by decide)
  have h2 := (c8_dropped_tasks pmNone pdNone 0 docAllDrop).2 (by decide)
  exact ⟨⟨h1.1, h1.2.1⟩, h2⟩

-- ===========================================================================
-- Claim C9 (mapping recorded before the eligibility check)
-- ===========================================================================

/-- C9: when the first source task bearing an original identifier is deleted
or hidden, the final ID mapping still binds that identifier to the fresh
identifier generated for the dropped task — an identifier bound to no
converted task — and later tasks with the same original identifier do not
replace the entry. -/
theorem c9_mapping_recorded_before_eligibility (pm : String → Option Int)
    (pd : String → Option String) (now : Int) (doc : GDoc) (gi ji : Nat) (gl : GTaskList)
    (g : GTask) (hgl : (doc.items.getD []).get? gi = some gl)
    (hg : (gl.items.getD []).get? ji = some g) (hoid : g.id.getD "" ≠ "")
    (hb1 : ∀ gl' ∈ (doc.items.getD []).take gi, ∀ g' ∈ gl'.items.getD [],
      g'.id.getD "" ≠ g.id.getD "")
    (hb2 : ∀ g' ∈ (gl.items.getD []).take ji, g'.id.getD "" ≠ g.id.getD "")
    (hdrop : (g.deleted || g.hidden) = true) :
    alookup (firstPass pm pd now doc).cs.idMap (g.id.getD "") =
      some (assignedId doc gi ji) ∧
    alookup (convert_google_tasks_to_sp pm pd now doc).tasks (assignedId doc gi ji) = none ∧
    assignedId doc gi ji ∉ (convert_google_tasks_to_sp pm pd now doc).taskIds := by
  have hmap := firstPass_idMap_first pm pd now doc gi ji gl g hgl hg hoid hb1 hb2
  have hdropped := dropped_not_in_output pm pd now doc gi ji gl g hgl hg hdrop
  exact ⟨hmap, hdropped.1, hdropped.2.1⟩

def gChild : GTask := { id := some "c", title := some "C", parent := some "p" }

def gPdup : GTask := { id := some "p", title := some "P2" }

def docDropFirst : GDoc :=
  { kind := some "tasks#taskLists",
    items := some [⟨some "L", some [gPdel, gChild, gPdup]⟩] }

/-- C9 witness: the first occurrence of original identifier `p` is deleted;
the mapping still binds `p` to its fresh identifier (1), bound to no task,
even though a later eligible task (`gPdup`) carries the same identifier. -/
theorem c9_witness :
    alookup (firstPass pmNone pdNone 0 docDropFirst).cs.idMap (gPdel.id.getD "") =
      some (assignedId docDropFirst 0 0) ∧
    alookup (convert_google_tasks_to_sp pmNone pdNone 0 docDropFirst).tasks
      (assignedId docDropFirst 0 0) = none ∧
    assignedId docDropFirst 0 0 ∉
      (convert_google_tasks_to_sp pmNone pdNone 0 docDropFirst).taskIds :=
  c9_mapping_recorded_before_eligibility pmNone pdNone 0 docDropFirst 0 0 _ gPdel rfl rfl
    (by decide) (by decide) (by decide) (by decide)

-- ===========================================================================
-- Claim C10 (missing items keys)
-- ===========================================================================

/-- C10: a document without the top-level `items` key converts to zero
projects and zero tasks without error, and a group without an `items` key
produces a project whose visible task list is empty. -/
theorem c10_missing_items (pm : String → Option Int) (pd : String → Option String)
    (now : Int) (doc : GDoc) :
    (doc.items = none → convert_google_tasks_to_sp pm pd now doc = ⟨[], [], [], []⟩) ∧
    (∀ gi gl, (doc.items.getD []).get? gi = some gl → gl.items = none →
      ∃ pr : Project, alookup (convert_google_tasks_to_sp pm pd now doc).projects
        (projectIdAt doc gi) = some pr ∧ pr.id = projectIdAt doc gi ∧ pr.taskIds = []) := by
  constructor
  · intro h
    have hil : doc.items.getD [] = ([] : List GTaskList) := by rw [h]; rfl
    have hfp : firstPass pm pd now doc = initDState := by
      simp only [firstPass, hil]
      rfl
    simp only [convert_google_tasks_to_sp, hfp]
    rfl
  · intro gi gl hgl hitems
    obtain ⟨pr, hpr, hid, htids⟩ := firstPass_project_exists pm pd now doc gi gl hgl
    have htids2 : pr.taskIds = [] := by
      rw [htids]
      simp only [convert_task_list, hitems]
      rfl
    refine ⟨filterTaskIds (runSubs pm pd now doc) pr.taskIds pr, ?_, hid, ?_⟩
    · rw [out_projects_eq]
      rw [alookup_map_value (fun pr0 => filterTaskIds (runSubs pm pd now doc) pr0.taskIds pr0)
        (firstPass pm pd now doc).projects (projectIdAt doc gi), hpr]
      rfl
    · simp [filterTaskIds, htids2]

def docNoItems : GDoc := { kind := some "tasks#taskLists" }

def docEmptyGroup : GDoc :=
  { kind := some "tasks#taskLists", items := some [{ title := some "L" }] }

/-- C10 witness: both branches at concrete documents. -/
theorem c10_witness :
    convert_google_tasks_to_sp pmNone pdNone 0 docNoItems = ⟨[], [], [], []⟩ ∧
    (∃ pr : Project, alookup (convert_google_tasks_to_sp pmNone pdNone 0 docEmptyGroup).projects
      (projectIdAt docEmptyGroup 0) = some pr ∧ pr.id = projectIdAt docEmptyGroup 0 ∧
      pr.taskIds = []) :=
  ⟨(c10_missing_items pmNone pdNone 0 docNoItems).1 rfl,
   (c10_missing_items pmNone pdNone 0 docEmptyGroup).2 0 _ rfl rfl⟩

-- ===========================================================================
-- Claim C1 (converted-task invariant)
-- ===========================================================================

/-- `a` is the stored parent of `b` in the task table. -/
def parentStep (tasks : List (Nat × SPTask)) (b a : Nat) : Prop :=
  ∃ t, alookup tasks b = some t ∧ t.parentId = some a

/-- Every converted task's declared parent identifier, when bound in the
final ID mapping, is bound to the identifier of a converted task generated
strictly earlier in the run. -/
def goodParents (pm : String → Option Int) (pd : String → Option String) (now : Int)
    (doc : GDoc) : Bool :=
  (firstPass pm pd now doc).cs.t2o.all (fun e =>
    match e.2.parent with
    | none => true
    | some p =>
      decide (p = "") ||
      (match alookup (firstPass pm pd now doc).cs.idMap p with
       | none => true
       | some u => decide (u < e.1) &&
           decide (u ∈ (firstPass pm pd now doc).cs.allTasks.map Prod.fst)))

/-- The two facts `goodParents` provides about a final parent edge. -/
theorem goodParents_edge (pm : String → Option Int) (pd : String → Option String) (now : Int)
    (doc : GDoc) (hgp : goodParents pm pd now doc = true) {b : Nat} {tb : SPTask}
    (hb : alookup (convert_google_tasks_to_sp pm pd now doc).tasks b = some tb) {a : Nat}
    (hpar : tb.parentId = some a) :
    a < b ∧ a ∈ (firstPass pm pd now doc).cs.allTasks.map Prod.fst := by
  rw [(out_tasks_eq pm pd now doc).1] at hb
  obtain ⟨g, p, hg, hp, hpe, hm, -⟩ := runTasks_parent_char pm pd now doc b tb hb a hpar
  have hmem := mem_of_alookup_eq_some hg
  have hall := List.all_eq_true.mp hgp (b, g) hmem
  simp only [hp, hm] at hall
  have hpe2 : decide (p = "") = false := by
    simp [hpe]
  rw [hpe2] at hall
  simp only [Bool.false_or, Bool.and_eq_true, decide_eq_true_eq] at hall
  exact hall

/-- C1 (amended): the parent/child consistency is bidirectional on every
run — whenever a converted task's `parentId` is the identifier of a task
present in the converted set, that task's `subTaskIds` contain the child's
identifier exactly once, and conversely every `subTaskIds` entry is the
identifier of a present converted task whose `parentId` points back at the
list's owner; provided `goodParents` (every mapped parent reference points
at a strictly earlier converted task), every present `parentId` resolves to
a task of the converted set and no task is its own ancestor through the
`parentId` chain. -/
theorem c1_converted_task_invariant (pm : String → Option Int) (pd : String → Option String)
    (now : Int) (doc : GDoc) :
    (goodParents pm pd now doc = true →
      (∀ b tb a, alookup (convert_google_tasks_to_sp pm pd now doc).tasks b = some tb →
        tb.parentId = some a →
        (alookup (convert_google_tasks_to_sp pm pd now doc).tasks a).isSome) ∧
      (∀ x, ¬ Relation.TransGen
        (parentStep (convert_google_tasks_to_sp pm pd now doc).tasks) x x)) ∧
    (∀ b tb a ta, alookup (convert_google_tasks_to_sp pm pd now doc).tasks b = some tb →
      tb.parentId = some a →
      alookup (convert_google_tasks_to_sp pm pd now doc).tasks a = some ta →
      b ∈ ta.subTaskIds ∧ ta.subTaskIds.count b = 1) ∧
    (∀ a ta b, alookup (convert_google_tasks_to_sp pm pd now doc).tasks a = some ta →
      b ∈ ta.subTaskIds →
      ∃ tb, alookup (convert_google_tasks_to_sp pm pd now doc).tasks b = some tb ∧
        tb.parentId = some a) := by
  refine ⟨?_, ?_, ?_⟩
  · intro hgp
    constructor
    · intro b tb a hb hpar
      have hedge := goodParents_edge pm pd now doc hgp hb hpar
      rw [(out_tasks_eq pm pd now doc).1]
      refine alookup_isSome_of_mem_keys ?_
      have h1 : (runTasks pm pd now doc).map Prod.fst =
          (firstPass pm pd now doc).cs.allTasks.map Prod.fst :=
        bsr_keys (firstPass pm pd now doc).cs.allTasks (firstPass pm pd now doc).cs.idMap
          (firstPass pm pd now doc).cs.t2o
      rw [h1]
      exact hedge.2
    · intro x htg
      have hdec : ∀ b a, parentStep (convert_google_tasks_to_sp pm pd now doc).tasks b a →
          a < b := by
        intro b a hstep
        obtain ⟨tb, hb, hpar⟩ := hstep
        exact (goodParents_edge pm pd now doc hgp hb hpar).1
      have key : ∀ y, Relation.TransGen
          (parentStep (convert_google_tasks_to_sp pm pd now doc).tasks) x y → y < x := by
        intro y hy
        induction hy with
        | single h1 => exact hdec _ _ h1
        | tail hxy hyz ih => exact lt_trans (hdec _ _ hyz) ih
      exact absurd (key x htg) (lt_irrefl x)
  · intro b tb a ta hb hpar ha
    rw [(out_tasks_eq pm pd now doc).1] at hb ha
    obtain ⟨g, p, hg, hp, hpe, hm, hres⟩ := runTasks_parent_char pm pd now doc b tb hb a hpar
    have hamem : a ∈ (firstPass pm pd now doc).cs.allTasks.map Prod.fst := by
      have h1 : a ∈ ((build_subtask_relationships (firstPass pm pd now doc).cs.allTasks
          (firstPass pm pd now doc).cs.idMap (firstPass pm pd now doc).cs.t2o).1).map
          Prod.fst := mem_keys_of_alookup_eq_some ha
      rw [bsr_keys] at h1
      exact h1
    have hres2 := hres hamem
    have hat := run_bsr_at pm pd now doc b g hg
    obtain ⟨-, -, hcount⟩ := hat.2 a hres2
    have hc1 := hcount ta ha
    have hpos : 0 < ta.subTaskIds.count b := by
      rw [hc1]
      exact Nat.zero_lt_one
    exact ⟨List.count_pos_iff.mp hpos, hc1⟩
  · intro a ta b ha hb
    rw [(out_tasks_eq pm pd now doc).1] at ha ⊢
    exact runTasks_subs_char pm pd now doc a ta b ha hb

def gSelf : GTask := { id := some "a", title := some "A", parent := some "a" }

def docSelf : GDoc :=
  { kind := some "tasks#taskLists", items := some [⟨some "L", some [gSelf]⟩] }

def docDangling : GDoc :=
  { kind := some "tasks#taskLists", items := some [⟨some "L", some [gPdel, gChild]⟩] }

/-- C1 counterexample: the invariant does not hold for every source
document.  A task that names itself as parent survives conversion as its
own parent (its own ancestor), and a task whose parent was dropped as
deleted keeps a `parentId` that no task of the converted set carries. -/
theorem c1_counterexample :
    (∃ t, alookup (convert_google_tasks_to_sp pmNone pdNone 0 docSelf).tasks 1 = some t ∧
      t.parentId = some 1) ∧
    Relation.TransGen (parentStep (convert_google_tasks_to_sp pmNone pdNone 0 docSelf).tasks)
      1 1 ∧
    (∃ t, alookup (convert_google_tasks_to_sp pmNone pdNone 0 docDangling).tasks 2 = some t ∧
      t.parentId = some 1 ∧
      alookup (convert_google_tasks_to_sp pmNone pdNone 0 docDangling).tasks 1 = none) := by
  refine ⟨⟨_, rfl, rfl⟩, Relation.TransGen.single ⟨_, rfl, rfl⟩, ⟨_, rfl, rfl, rfl⟩⟩

def docPC : GDoc :=
  { kind := some "tasks#taskLists", items := some [⟨some "L", some [gPdup, gChild]⟩] }

/-- C1 witness: on a document with an ordinary parent/child pair the
hypothesis holds and all the invariant parts follow. -/
theorem c1_witness :
    goodParents pmNone pdNone 0 docPC = true ∧
    (∀ x, ¬ Relation.TransGen
      (parentStep (convert_google_tasks_to_sp pmNone pdNone 0 docPC).tasks) x x) ∧
    (∃ ta, alookup (convert_google_tasks_to_sp pmNone pdNone 0 docPC).tasks 1 = some ta ∧
      2 ∈ ta.subTaskIds ∧ ta.subTaskIds.count 2 = 1) ∧
    (∃ tb, alookup (convert_google_tasks_to_sp pmNone pdNone 0 docPC).tasks 2 = some tb ∧
      tb.parentId = some 1) := by
  have h := c1_converted_task_invariant pmNone pdNone 0 docPC
  refine ⟨by decide, (h.1 (by decide)).2, ⟨_, rfl, ?_⟩, ?_⟩
  · exact h.2.1 2 _ 1 _ rfl rfl rfl
  · exact h.2.2 1 _ 2 rfl (by decide)

-- ===========================================================================
-- Claim C2 (unresolvable parent references)
-- ===========================================================================

/-- C2 (amended): an eligible source task whose declared parent does not
resolve to a converted task remains in its group's visible task list and
causes no error; its `parentId` is absent whenever the parent identifier is
absent from the final ID mapping; and any `parentId` it does end the
conversion with is the mapping's binding of the declared parent identifier
and names no task of the converted set — a stale first-pass value the
second pass never clears, which the counterexample realizes. -/
theorem c2_unresolvable_parent (pm : String → Option Int) (pd : String → Option String)
    (now : Int) (doc : GDoc) (gi ji : Nat) (gl : GTaskList) (g : GTask) (p : String)
    (hgl : (doc.items.getD []).get? gi = some gl)
    (hg : (gl.items.getD []).get? ji = some g)
    (helig : (g.deleted || g.hidden) = false)
    (hp : g.parent = some p) (hpne : p ≠ "")
    (hunres : (alookup (firstPass pm pd now doc).cs.idMap p).all
      (fun u => decide (u ∉ (firstPass pm pd now doc).cs.allTasks.map Prod.fst)) = true) :
    ∃ t, alookup (convert_google_tasks_to_sp pm pd now doc).tasks (assignedId doc gi ji) =
        some t ∧
      (∃ pr : Project, alookup (convert_google_tasks_to_sp pm pd now doc).projects
        (projectIdAt doc gi) = some pr ∧ assignedId doc gi ji ∈ pr.taskIds) ∧
      (alookup (firstPass pm pd now doc).cs.idMap p = none → t.parentId = none) ∧
      (∀ a, t.parentId = some a →
        alookup (firstPass pm pd now doc).cs.idMap p = some a ∧
        alookup (convert_google_tasks_to_sp pm pd now doc).tasks a = none) := by
  obtain ⟨ht2o, hsome, pr, hpr, hprid, hmemtids⟩ :=
    firstPass_at_eligible pm pd now doc gi ji gl g hgl hg helig
  have hs := (firstPass_dinv pm pd now doc).sinv
  have hres : resolvedParent (firstPass pm pd now doc).cs.idMap
      ((firstPass pm pd now doc).cs.allTasks.map Prod.fst) g = none := by
    cases hm : alookup (firstPass pm pd now doc).cs.idMap p with
    | none => simp [resolvedParent, hp, hpne, hm]
    | some u =>
        rw [hm] at hunres
        simp only [Option.all_some, decide_eq_true_eq] at hunres
        simp [resolvedParent, hp, hpne, hm, hunres]
  have hat := run_bsr_at pm pd now doc (assignedId doc gi ji) g ht2o
  obtain ⟨hmap, hnsubs⟩ := hat.1 hres
  obtain ⟨t0, ht0⟩ := Option.isSome_iff_exists.mp hsome
  have hkmem : assignedId doc gi ji ∈ (firstPass pm pd now doc).cs.allTasks.map Prod.fst :=
    mem_keys_of_alookup_eq_some ht0
  have hrunmem : assignedId doc gi ji ∈ (runTasks pm pd now doc).map Prod.fst := by
    have hk := bsr_keys (firstPass pm pd now doc).cs.allTasks
      (firstPass pm pd now doc).cs.idMap (firstPass pm pd now doc).cs.t2o
    have h2 : (runTasks pm pd now doc).map Prod.fst =
        (firstPass pm pd now doc).cs.allTasks.map Prod.fst := hk
    rw [h2]
    exact hkmem
  obtain ⟨t, ht⟩ := Option.isSome_iff_exists.mp (alookup_isSome_of_mem_keys hrunmem)
  have htpar : t.parentId = t0.parentId := by
    rw [ht, ht0] at hmap
    exact Option.some.inj hmap
  have ht0char := hs.aligned (assignedId doc gi ji) t0 ht0
  refine ⟨t, ?_, ?_, ?_, ?_⟩
  · rw [(out_tasks_eq pm pd now doc).1]
    exact ht
  · refine ⟨filterTaskIds (runSubs pm pd now doc) pr.taskIds pr, ?_, ?_⟩
    · rw [out_projects_eq]
      rw [alookup_map_value (fun pr0 => filterTaskIds (runSubs pm pd now doc) pr0.taskIds pr0)
        (firstPass pm pd now doc).projects (projectIdAt doc gi), hpr]
      rfl
    · simp only [filterTaskIds]
      refine List.mem_filter.mpr ⟨hmemtids, ?_⟩
      simp [hnsubs]
  · intro hmnone
    rw [htpar]
    obtain ⟨-, -, g', hg', hchar⟩ := ht0char
    have hgg : g' = g := by
      rw [ht2o] at hg'
      exact (Option.some.inj hg').symm
    rw [hgg] at hchar
    rcases hchar with hnone | ⟨p', hp', hpe', hm'⟩
    · exact hnone
    · have hpp : p' = p := by
        rw [hp] at hp'
        exact (Option.some.inj hp').symm
      rw [hpp, hmnone] at hm'
      exact hm'.symm
  · intro a hta
    obtain ⟨-, -, g', hg', hchar⟩ := ht0char
    have hgg : g' = g := by
      rw [ht2o] at hg'
      exact (Option.some.inj hg').symm
    rw [hgg] at hchar
    have ht0a : t0.parentId = some a := by
      rw [← htpar]
      exact hta
    rcases hchar with hnone | ⟨p', hp', hpe', hm'⟩
    · rw [hnone] at ht0a
      cases ht0a
    · have hpp : p' = p := by
        rw [hp] at hp'
        exact (Option.some.inj hp').symm
      rw [hpp, ht0a] at hm'
      refine ⟨hm', ?_⟩
      rw [hm'] at hunres
      simp only [Option.all_some, decide_eq_true_eq] at hunres
      rw [(out_tasks_eq pm pd now doc).1]
      refine alookup_eq_none_of_not_mem_keys ?_
      have hk : (runTasks pm pd now doc).map Prod.fst =
          (firstPass pm pd now doc).cs.allTasks.map Prod.fst :=
        bsr_keys (firstPass pm pd now doc).cs.allTasks
          (firstPass pm pd now doc).cs.idMap (firstPass pm pd now doc).cs.t2o
      rw [hk]
      exact hunres

/-- C2 counterexample: an eligible task whose declared parent cannot be
resolved (the parent was dropped as deleted) does not end the conversion
with `parentId` absent: the converted child (identifier 2) carries the
dangling `parentId = 1` although no task 1 exists. -/
theorem c2_counterexample :
    gChild.parent = some "p" ∧ (gChild.deleted || gChild.hidden) = false ∧
    alookup (firstPass pmNone pdNone 0 docDangling).cs.idMap "p" = some 1 ∧
    alookup (convert_google_tasks_to_sp pmNone pdNone 0 docDangling).tasks 1 = none ∧
    (∃ t, alookup (convert_google_tasks_to_sp pmNone pdNone 0 docDangling).tasks 2 = some t ∧
      t.parentId = some 1) := by
  exact ⟨rfl, rfl, rfl, rfl, ⟨_, rfl, rfl⟩⟩

/-- C2 witness: the amended claim at the dangling document. -/
theorem c2_witness :
    ∃ t, alookup (convert_google_tasks_to_sp pmNone pdNone 0 docDangling).tasks
        (assignedId docDangling 0 1) = some t ∧
      (∃ pr : Project, alookup (convert_google_tasks_to_sp pmNone pdNone 0 docDangling).projects
        (projectIdAt docDangling 0) = some pr ∧ assignedId docDangling 0 1 ∈ pr.taskIds) ∧
      (alookup (firstPass pmNone pdNone 0 docDangling).cs.idMap "p" = none →
        t.parentId = none) ∧
      (∀ a, t.parentId = some a →
        alookup (firstPass pmNone pdNone 0 docDangling).cs.idMap "p" = some a ∧
        alookup (convert_google_tasks_to_sp pmNone pdNone 0 docDangling).tasks a = none) :=
  c2_unresolvable_parent pmNone pdNone 0 docDangling 0 1 _ gChild "p" rfl rfl (by decide)
    rfl (by decide) (by decide)

-- ===========================================================================
-- Claim C3 (parent / child pair)
-- ===========================================================================

/-- C3 (amended): for an eligible parent task (the first occurrence of its
truthy original identifier) and an eligible child task declaring that
identifier as parent, after conversion the child's `parentId` is the
parent's generated identifier, the parent's `subTaskIds` contains the
child's identifier exactly once, no group's visible list contains the
child's identifier, and every group's visible list is its arrival-order
list filtered of subtasks (surviving entries keep arrival order); provided
additionally the parent itself is top-level (its own declared parent does
not resolve to a converted task), the parent's group's visible list
contains the parent's identifier. -/
theorem c3_parent_child_pair (pm : String → Option Int) (pd : String → Option String)
    (now : Int) (doc : GDoc) (gi₁ ji₁ gi₂ ji₂ : Nat) (gl₁ gl₂ : GTaskList) (gp gc : GTask)
    (hgl₁ : (doc.items.getD []).get? gi₁ = some gl₁)
    (hg₁ : (gl₁.items.getD []).get? ji₁ = some gp)
    (hgl₂ : (doc.items.getD []).get? gi₂ = some gl₂)
    (hg₂ : (gl₂.items.getD []).get? ji₂ = some gc)
    (heligP : (gp.deleted || gp.hidden) = false)
    (heligC : (gc.deleted || gc.hidden) = false)
    (hoid : gp.id.getD "" ≠ "")
    (hb1 : ∀ gl' ∈ (doc.items.getD []).take gi₁, ∀ g' ∈ gl'.items.getD [],
      g'.id.getD "" ≠ gp.id.getD "")
    (hb2 : ∀ g' ∈ (gl₁.items.getD []).take ji₁, g'.id.getD "" ≠ gp.id.getD "")
    (hcp : gc.parent = some (gp.id.getD "")) :
    (∃ tc, alookup (convert_google_tasks_to_sp pm pd now doc).tasks (assignedId doc gi₂ ji₂) =
        some tc ∧ tc.parentId = some (assignedId doc gi₁ ji₁)) ∧
    (∃ tp, alookup (convert_google_tasks_to_sp pm pd now doc).tasks (assignedId doc gi₁ ji₁) =
        some tp ∧ tp.subTaskIds.count (assignedId doc gi₂ ji₂) = 1) ∧
    (resolvedParent (firstPass pm pd now doc).cs.idMap
        ((firstPass pm pd now doc).cs.allTasks.map Prod.fst) gp = none →
      ∃ pr : Project, alookup (convert_google_tasks_to_sp pm pd now doc).projects
        (projectIdAt doc gi₁) = some pr ∧ assignedId doc gi₁ ji₁ ∈ pr.taskIds) ∧
    (∀ e ∈ (convert_google_tasks_to_sp pm pd now doc).projects,
      assignedId doc gi₂ ji₂ ∉ e.2.taskIds) ∧
    (convert_google_tasks_to_sp pm pd now doc).projects =
      (firstPass pm pd now doc).projects.map
        (fun e => (e.1, filterTaskIds (runSubs pm pd now doc) e.2.taskIds e.2)) := by
  obtain ⟨ht2oP, hsomeP, prP, hprP, hprPid, hmemP⟩ :=
    firstPass_at_eligible pm pd now doc gi₁ ji₁ gl₁ gp hgl₁ hg₁ heligP
  obtain ⟨ht2oC, hsomeC, -, -, -, -⟩ :=
    firstPass_at_eligible pm pd now doc gi₂ ji₂ gl₂ gc hgl₂ hg₂ heligC
  have hmap := firstPass_idMap_first pm pd now doc gi₁ ji₁ gl₁ gp hgl₁ hg₁ hoid hb1 hb2
  have hpkmem : assignedId doc gi₁ ji₁ ∈ (firstPass pm pd now doc).cs.allTasks.map Prod.fst := by
    obtain ⟨t0, ht0⟩ := Option.isSome_iff_exists.mp hsomeP
    exact mem_keys_of_alookup_eq_some ht0
  have hresC : resolvedParent (firstPass pm pd now doc).cs.idMap
      ((firstPass pm pd now doc).cs.allTasks.map Prod.fst) gc =
      some (assignedId doc gi₁ ji₁) :=
    resolvedParent_eq_some_intro hcp hoid hmap hpkmem
  have hatC := run_bsr_at pm pd now doc (assignedId doc gi₂ ji₂) gc ht2oC
  obtain ⟨hparC, hsubsC, hcountC⟩ := hatC.2 (assignedId doc gi₁ ji₁) hresC
  have hkeysR : (runTasks pm pd now doc).map Prod.fst =
      (firstPass pm pd now doc).cs.allTasks.map Prod.fst :=
    bsr_keys (firstPass pm pd now doc).cs.allTasks (firstPass pm pd now doc).cs.idMap
      (firstPass pm pd now doc).cs.t2o
  refine ⟨?_, ?_, ?_, ?_, out_projects_eq pm pd now doc⟩
  · have hckmem : assignedId doc gi₂ ji₂ ∈ (runTasks pm pd now doc).map Prod.fst := by
      rw [hkeysR]
      obtain ⟨t0, ht0⟩ := Option.isSome_iff_exists.mp hsomeC
      exact mem_keys_of_alookup_eq_some ht0
    obtain ⟨tc, htc⟩ := Option.isSome_iff_exists.mp (alookup_isSome_of_mem_keys hckmem)
    refine ⟨tc, by rw [(out_tasks_eq pm pd now doc).1]; exact htc, ?_⟩
    rw [htc] at hparC
    exact Option.some.inj hparC
  · have hpkmemR : assignedId doc gi₁ ji₁ ∈ (runTasks pm pd now doc).map Prod.fst := by
      rw [hkeysR]
      exact hpkmem
    obtain ⟨tp, htp⟩ := Option.isSome_iff_exists.mp (alookup_isSome_of_mem_keys hpkmemR)
    exact ⟨tp, by rw [(out_tasks_eq pm pd now doc).1]; exact htp, hcountC tp htp⟩
  · intro hPtop
    have hatP := run_bsr_at pm pd now doc (assignedId doc gi₁ ji₁) gp ht2oP
    obtain ⟨-, hPnsubs⟩ := hatP.1 hPtop
    refine ⟨filterTaskIds (runSubs pm pd now doc) prP.taskIds prP, ?_, ?_⟩
    · rw [out_projects_eq]
      rw [alookup_map_value (fun pr0 => filterTaskIds (runSubs pm pd now doc) pr0.taskIds pr0)
        (firstPass pm pd now doc).projects (projectIdAt doc gi₁), hprP]
      rfl
    · simp only [filterTaskIds]
      refine List.mem_filter.mpr ⟨hmemP, ?_⟩
      simp [hPnsubs]
  · intro e he hx
    rw [out_projects_eq] at he
    obtain ⟨e0, he0, hee⟩ := List.mem_map.mp he
    rw [← hee] at hx
    simp only [filterTaskIds] at hx
    have := (List.mem_filter.mp hx).2
    simp only [decide_eq_true_eq] at this
    exact this hsubsC

def gG : GTask := { id := some "g", title := some "G" }

def gPmid : GTask := { id := some "p", title := some "Pmid", parent := some "g" }

def docChain : GDoc :=
  { kind := some "tasks#taskLists", items := some [⟨some "L", some [gG, gPmid, gChild]⟩] }

/-- C3 counterexample: for the pair (`gPmid`, `gChild`) — an eligible parent
that is the first occurrence of identifier `p` and an eligible child naming
it — the group's visible task list does not contain the parent's new
identifier: `gPmid` is itself a subtask of `gG`, so the visible list is
`[1]` while the parent's identifier is 2. -/
theorem c3_counterexample :
    gChild.parent = some (gPmid.id.getD "") ∧
    (gPmid.deleted || gPmid.hidden) = false ∧
    (gChild.deleted || gChild.hidden) = false ∧
    alookup (firstPass pmNone pdNone 0 docChain).cs.idMap "p" = some 2 ∧
    (∃ tc, alookup (convert_google_tasks_to_sp pmNone pdNone 0 docChain).tasks 3 = some tc ∧
      tc.parentId = some 2) ∧
    Option.map Project.taskIds
      (alookup (convert_google_tasks_to_sp pmNone pdNone 0 docChain).projects 0) = some [1] ∧
    (2 : Nat) ∉ [1] := by
  exact ⟨rfl, rfl, rfl, rfl, ⟨_, rfl, rfl⟩, rfl, by decide⟩

/-- C3 witness: the amended claim at a concrete parent/child document. -/
theorem c3_witness :
    (∃ tc, alookup (convert_google_tasks_to_sp pmNone pdNone 0 docPC).tasks
        (assignedId docPC 0 1) = some tc ∧ tc.parentId = some (assignedId docPC 0 0)) ∧
    (∃ tp, alookup (convert_google_tasks_to_sp pmNone pdNone 0 docPC).tasks
        (assignedId docPC 0 0) = some tp ∧
      tp.subTaskIds.count (assignedId docPC 0 1) = 1) ∧
    (∃ pr : Project, alookup (convert_google_tasks_to_sp pmNone pdNone 0 docPC).projects
        (projectIdAt docPC 0) = some pr ∧ assignedId docPC 0 0 ∈ pr.taskIds) ∧
    (∀ e ∈ (convert_google_tasks_to_sp pmNone pdNone 0 docPC).projects,
      assignedId docPC 0 1 ∉ e.2.taskIds) := by
  have h := c3_parent_child_pair pmNone pdNone 0 docPC 0 0 0 1 _ _ gPdup gChild rfl rfl rfl
    rfl (by decide) (by decide) (by decide) (by decide) (by decide) rfl
  exact ⟨h.1, h.2.1, h.2.2.1 (by decide), h.2.2.2.1⟩

end GT2SP
